import Mathlib

/-!
Verification development for the `redteam_ai_assist` session-state pipeline.

Python strings are modelled as `List Char`; Python's `in` (substring test)
as `pyIn`; Python floats appearing as confidence scores are modelled as
exact rationals (the score computations involve only literals, addition,
multiplication, division and `min`); `dict[str, Any]` payloads are modelled
as association lists over a JSON value type `JVal`.

Sources embedded here:
  * `src/redteam_ai_assist/core/models.py`
  * `src/redteam_ai_assist/core/phases.py`
  * `src/redteam_ai_assist/core/policy.py`
  * `src/redteam_ai_assist/storage/session_store.py`
  * `src/redteam_ai_assist/rag/store.py`, `rag/retriever.py`, `rag/indexer.py`
  * `src/redteam_ai_assist/services/assistant_service.py`
-/

/-- Python strings modelled as lists of unicode scalar values. -/
abbrev Str := List Char

/-- Python's substring operator `needle in haystack` on strings. -/
def pyIn (needle hay : Str) : Bool := decide (needle <:+: hay)

/-- Python's `str.lower()` (ASCII case mapping; all inputs considered here are
ASCII, where CPython's unicode lowercasing agrees with ASCII lowercasing). -/
def pyLower (s : Str) : Str := s.map Char.toLower

/-- Python's whitespace set used by `str.strip()` (ASCII part). -/
def isPySpace (c : Char) : Bool :=
  c == ' ' || c == '\t' || c == '\n' || c == '\x0b' || c == '\x0c' || c == '\r'

/-- Python's `str.strip()`. -/
def pyStrip (s : Str) : Str :=
  (s.dropWhile isPySpace).reverse.dropWhile isPySpace |>.reverse

/-- `sep.join(parts)` for a one-character separator list: concatenation with
the separator between consecutive parts. -/
def joinSep (sep : Str) : List Str → Str
  | [] => []
  | [p] => p
  | p :: rest => p ++ sep ++ joinSep sep rest

/-- All characters ASCII: the domain on which the `\w`-based word boundaries
of the policy regexes are modelled exactly. -/
def allAscii (s : Str) : Bool := s.all (fun c => c.toNat < 128)

/-! ## Data model (`core/models.py`) -/

/-- `EventType = Literal["command", "http", "scan", "note", "system"]`. -/
inductive EventType where
  | command | http | scan | note | system
deriving DecidableEq, Repr

/-- `PhaseName = Literal["recon", "enumeration", "hypothesis", "attempt",
"post_check", "report"]`. -/
inductive PhaseName where
  | recon | enumeration | hypothesis | attempt | post_check | report
deriving DecidableEq, Repr

/-- `MemoryMode = Literal["summary", "window", "full"]`. -/
inductive MemoryMode where
  | summary | window | full
deriving DecidableEq, Repr

/-- `RagFocus = Literal["auto", "recon", "report"]`. -/
inductive RagFocus where
  | auto | recon | report
deriving DecidableEq, Repr

/-- JSON-representable Python values, the payload domain of `ActivityEvent.payload`
(`dict[str, Any]` populated from parsed JSON: null, bools, ints, strings,
lists and string-keyed dicts; floats do not occur in the payloads this
repository produces and are not modelled). An object is a list of key/value
pairs in dict insertion order. -/
inductive JVal where
  | jnull : JVal
  | jbool : Bool → JVal
  | jint : Int → JVal
  | jstr : Str → JVal
  | jarr : List JVal → JVal
  | jobj : List (Str × JVal) → JVal

/-- `dict.get(key)` on an association-list model of a Python dict. -/
def jLookup (payload : List (Str × JVal)) (key : Str) : Option JVal :=
  match payload with
  | [] => none
  | (k, v) :: rest => if k = key then some v else jLookup rest key

/-- Decimal digits of a natural number, most significant first. -/
def natRepr (n : Nat) : Str :=
  if n = 0 then [Char.ofNat 48]
  else ((Nat.digits 10 n).map (fun d => Char.ofNat (48 + d))).reverse

/-- `repr` / `str` of a Python int. -/
def intRepr (n : Int) : Str :=
  if n < 0 then '-' :: natRepr n.natAbs else natRepr n.natAbs

mutual

/-- Python `repr` of a JSON-representable value (containers render their
elements recursively; strings render single-quoted; only the escapes relevant
to the values this repository manipulates are modelled). Used solely to give
`pyStr` a total meaning on non-string payload values; no claim exercises it. -/
def pyRepr : JVal → Str
  | .jnull => ("None").toList
  | .jbool true => ("True").toList
  | .jbool false => ("False").toList
  | .jint n => intRepr n
  | .jstr s => Char.ofNat 39 :: s ++ [Char.ofNat 39]
  | .jarr l => '[' :: pyReprArr l ++ [']']
  | .jobj l => '\x7b' :: pyReprObj l ++ ['\x7d']

def pyReprArr : List JVal → Str
  | [] => []
  | [v] => pyRepr v
  | v :: t => pyRepr v ++ (", ").toList ++ pyReprArr t

def pyReprObj : List (Str × JVal) → Str
  | [] => []
  | [p] => Char.ofNat 39 :: p.1 ++ [Char.ofNat 39, ':', ' '] ++ pyRepr p.2
  | p :: t => (Char.ofNat 39 :: p.1 ++ [Char.ofNat 39, ':', ' '] ++ pyRepr p.2) ++
      (", ").toList ++ pyReprObj t

end

/-- Python `str()` of a payload value: identity on strings, `repr`-like
otherwise (`str(True) = "True"`, `str(None) = "None"`, `str(3) = "3"`,
containers via `repr`). -/
def pyStr : JVal → Str
  | .jstr s => s
  | v => pyRepr v

/-- `str(payload.get(key, ""))` as used throughout `phases.py` and
`workflow.py`. -/
def pyGetStr (payload : List (Str × JVal)) (key : Str) : Str :=
  match jLookup payload key with
  | none => []
  | some v => pyStr v

/-- `ActivityEvent` (`core/models.py`): `event_id`, `event_type`, `timestamp`,
`payload`. The timestamp is modelled by its ISO-8601 serialization
(`datetime.isoformat()`), the only view of it that the embedded code uses. -/
structure ActivityEvent where
  event_id : Str
  event_type : EventType
  timestamp : Str
  payload : List (Str × JVal)

/-- `ActionItem` (`core/models.py`). -/
structure ActionItem where
  title : Str
  rationale : Str
  done_criteria : Str
  command : Option Str
deriving DecidableEq

/-- `CachedSuggest` (`core/models.py`): fingerprint plus the cached
`SuggestResponse` payload, stored as a JSON-serializable dict (modelled
abstractly as `JVal`). -/
structure CachedSuggest where
  fingerprint : Str
  payload : JVal

/-- `SessionRecord` (`core/models.py`). `created_at`/`updated_at` are modelled
by their serialized timestamps. -/
structure SessionRecord where
  session_id : Str
  tenant_id : Str
  user_id : Str
  agent_id : Str
  objective : Str
  target_scope : List Str
  policy_id : Str
  created_at : Str
  updated_at : Str
  current_phase : PhaseName
  events : List ActivityEvent
  notes : List Str
  last_reasoning : Option Str
  cached_suggest : Option CachedSuggest

/-- `SuggestRequest` (`core/models.py`); `user_message` optional, the rest
defaulted fields with `history_window` an int constrained to `1..120` by
pydantic (modelled as `Nat`). -/
structure SuggestRequest where
  user_message : Option Str
  memory_mode : MemoryMode
  history_window : Nat
  phase_override : Option PhaseName
  persist_phase_override : Bool
  rag_focus : RagFocus

/-! ## Phase classifier (`core/phases.py`) -/

/-- The fixed iteration order of the `PHASE_PATTERNS` stage table (Python dict
literal order, which `dict` iteration preserves). -/
def PHASES : List PhaseName :=
  [.recon, .enumeration, .hypothesis, .attempt, .post_check, .report]

/-- `PHASE_PATTERNS` (`phases.py`). -/
def PHASE_PATTERNS : PhaseName → List Str
  | .recon => [("nmap").toList, ("masscan").toList, ("naabu").toList,
      ("arp-scan").toList, ("netdiscover").toList]
  | .enumeration => [("gobuster").toList, ("ffuf").toList, ("nikto").toList,
      ("enum4linux").toList, ("dirsearch").toList]
  | .hypothesis => [("hypothesis").toList, ("possible weak point").toList,
      ("candidate issue").toList]
  | .attempt => [("sqlmap").toList, ("hydra").toList, ("exploit").toList,
      ("metasploit").toList, ("poc").toList]
  | .post_check => [("whoami").toList, ("id").toList, ("hostname").toList,
      ("proof").toList, ("verify impact").toList]
  | .report => [("report").toList, ("summary").toList, ("timeline").toList,
      ("evidence").toList]

/-- `REPORT_KEYWORDS` (`phases.py`). -/
def REPORT_KEYWORDS : List Str :=
  [("report").toList, ("template").toList, ("timeline").toList,
   ("findings").toList, ("final notes").toList]

/-- `RECON_KEYWORDS` (`phases.py`). -/
def RECON_KEYWORDS : List Str :=
  [("recon").toList, ("reconnaissance").toList, ("inventory").toList,
   ("checklist").toList]

/-- Python's `events[-k:]` for a fixed positive literal `k` (used with 10 and
20 in `detect_phase` and 25 in the fingerprint): the last `min k (length)`
elements. -/
def pyLastSlice (k : Nat) (l : List α) : List α := l.drop (l.length - k)

/-- The `" ".join(...)` of the `str(payload.get("message", ""))` of the
note-typed events among the last 10 events, lowercased (`detect_phase`,
`phases.py` lines 52-57). -/
def noteText (events : List ActivityEvent) : Str :=
  pyLower (joinSep ([' '])
    ((pyLastSlice 10 events).filterMap
      (fun e => if e.event_type = .note
        then some (pyGetStr e.payload (("message").toList)) else none)))

/-- The lowercase blob of command/message/summary fields of the last 20
events (`detect_phase`, `phases.py` lines 62-68). -/
def recentText (events : List ActivityEvent) : Str :=
  pyLower (joinSep ([' '])
    ((pyLastSlice 20 events).flatMap
      (fun e => [pyGetStr e.payload (("command").toList),
                 pyGetStr e.payload (("message").toList),
                 pyGetStr e.payload (("summary").toList)])))

/-- Pattern hits for one stage: one hit per pattern present in the blob
(`if pattern in text: match_counts[phase] += 1`). -/
def phaseHits (text : Str) (ph : PhaseName) : Nat :=
  (PHASE_PATTERNS ph).countP (fun p => pyIn p text)

/-- The `Counter` contents in insertion order: stages in `PHASE_PATTERNS`
iteration order, restricted to stages with at least one hit. -/
def counterItems (text : Str) : List (PhaseName × Nat) :=
  PHASES.filterMap (fun ph =>
    if phaseHits text ph > 0 then some (ph, phaseHits text ph) else none)

/-- `Counter.most_common(1)[0]`: the earliest-inserted entry of maximal count
(CPython's `most_common` is a stable descending sort by count; `heapq.nlargest`
preserves insertion order among equal counts). -/
def mostCommon1 : List (PhaseName × Nat) → Option (PhaseName × Nat)
  | [] => none
  | h :: t => some (t.foldl (fun best it => if it.2 > best.2 then it else best) h)

/-- `detect_phase` (`phases.py` lines 47-82). Confidence values are exact
rationals. -/
def detect_phase (events : List ActivityEvent) (current_phase : PhaseName) :
    PhaseName × ℚ :=
  if events.isEmpty then (current_phase, 2/5)
  else
    let note_text := noteText events
    if note_text ≠ [] ∧ REPORT_KEYWORDS.any (fun kw => pyIn kw note_text) then
      (.report, 9/10)
    else if note_text ≠ [] ∧ RECON_KEYWORDS.any (fun kw => pyIn kw note_text) then
      (.recon, 17/20)
    else
      let text := recentText events
      match mostCommon1 (counterItems text) with
      | none => (current_phase, 9/20)
      | some best =>
        let total := ((counterItems text).map (fun it => it.2)).sum
        (best.1, min (19/20)
          (1/2 + ((phaseHits text best.1 : ℚ) / ((max total 1 : ℕ) : ℚ)) * (1/2)))

/-! ## Policy guard (`core/policy.py`)

`IP_PATTERN = \b(?:\d\x7b1,3\x7d\.)\x7b3\x7d\d\x7b1,3\x7d\b` and
`HOST_PATTERN = \b[a-zA-Z0-9_-]+(?:\.[a-zA-Z0-9_-]+)+\b` are modelled by
specialized backtracking matchers with Python `re.findall` scan semantics
(leftmost non-overlapping matches, scanning resumes after each match).
Word characters (`\w`, used by `\b`) are modelled over ASCII; the policy
theorems below carry an `allAscii` hypothesis making this domain explicit. -/

/-- `\w` on the ASCII range. -/
def isWordChar (c : Char) : Bool := c.isAlphanum || c == '_'

/-- The character class `[a-zA-Z0-9_-]` of `HOST_PATTERN`. -/
def isHostChar (c : Char) : Bool := c.isAlphanum || c == '_' || c == '-'

/-- `\b` between a preceding character (none at string start) and a following
position: exactly one side is a word character (out-of-string counts as
non-word). -/
def wordBoundary (prev : Option Char) (next : Option Char) : Bool :=
  (match prev with | none => false | some c => isWordChar c) !=
  (match next with | none => false | some c => isWordChar c)

/-- Greedy candidate lengths for one `\d\x7b1,3\x7d` segment: from
`min 3 (leading digit run)` down to `1`. -/
def segLens (s : Str) : List Nat :=
  let m := min ((s.takeWhile Char.isDigit).length) 3
  (List.range m).map (fun i => m - i)

/-- First success of `f` over a list of alternatives, in order — the
backtracking search order of the regex engine. -/
def firstSome (f : α → Option β) : List α → Option β
  | [] => none
  | a :: rest =>
    match f a with
    | some b => some b
    | none => firstSome f rest

/-- Match `(?:\d\x7b1,3\x7d\.)\x7b3\x7d\d\x7b1,3\x7d\b` at the head of `s`
(the leading `\b` is checked by the caller), returning the match length.
Each segment is greedy with backtracking; the trailing `\b` compares the last
digit (a word character) with the following character. -/
def matchIPCore (s : Str) : Option Nat :=
  firstSome (fun l1 =>
    match s.drop l1 with
    | '.' :: s1 =>
      firstSome (fun l2 =>
        match s1.drop l2 with
        | '.' :: s2 =>
          firstSome (fun l3 =>
            match s2.drop l3 with
            | '.' :: s3 =>
              firstSome (fun l4 =>
                if wordBoundary (some '0') ((s3.drop l4).head?) then
                  some (l1 + 1 + l2 + 1 + l3 + 1 + l4)
                else none) (segLens s3)
            | _ => none) (segLens s2)
        | _ => none) (segLens s1)
    | _ => none) (segLens s)

/-- Match the `(?:\.[a-zA-Z0-9_-]+)+\b` tail of `HOST_PATTERN` starting at
`s`, returning the consumed length. The outer `+` is greedy (more iterations
preferred); each inner `[a-zA-Z0-9_-]+` run is maximal while followed by a
dot (a shorter run would face a class character where `\.` is required) and
backtracks from its maximal length only in the final iteration, to satisfy
the trailing `\b`. -/
def matchHostTail (fuel : Nat) (s : Str) : Option Nat :=
  match fuel with
  | 0 => none
  | fuel + 1 =>
    match s with
    | '.' :: s1 =>
      let r := (s1.takeWhile isHostChar).length
      if r = 0 then none
      else
        match matchHostTail fuel (s1.drop r) with
        | some n => some (1 + r + n)
        | none =>
          firstSome (fun len =>
            if wordBoundary (some (s1.getD (len - 1) ' ')) ((s1.drop len).head?) then
              some (1 + len)
            else none)
            ((List.range r).map (fun i => r - i))
    | _ => none

/-- Match `HOST_PATTERN` minus its leading `\b` at the head of `s`. The
first `[a-zA-Z0-9_-]+` run is forced maximal: giving characters back would
leave a class character where the following `\.` is required. -/
def matchHostCore (s : Str) : Option Nat :=
  let r := (s.takeWhile isHostChar).length
  if r = 0 then none
  else
    match matchHostTail s.length (s.drop r) with
    | some n => some (r + n)
    | none => none

/-- `re.findall` scan loop for a matcher `core` whose leading `\b` is checked
against the previous character: try to match at each position from left to
right, emit the match and resume after it, otherwise advance one character. -/
def findallAux (core : Str → Option Nat) :
    Nat → Option Char → Str → List Str
  | 0, _, _ => []
  | _ + 1, _, [] => []
  | fuel + 1, prev, s@(c :: rest) =>
    if wordBoundary prev (some c) then
      match core s with
      | some len =>
        s.take len :: findallAux core fuel ((s.take len).getLast?) (s.drop len)
      | none => findallAux core fuel (some c) rest
    else findallAux core fuel (some c) rest

/-- `IP_PATTERN.findall(command)`. -/
def ipFindall (s : Str) : List Str :=
  findallAux matchIPCore (s.length + 1) none s

/-- `HOST_PATTERN.findall(command)`. -/
def hostFindall (s : Str) : List Str :=
  findallAux matchHostCore (s.length + 1) none s

/-- `PolicyGuard.__init__`: allowed tool set and blocklist substrings. -/
structure PolicyGuard where
  allowed_tools : List Str
  blocklist_patterns : List Str

/-- `PolicyGuard._extract_tool`: first space-delimited token of the stripped
command, stripped and lowercased. -/
def extract_tool (command : Str) : Str :=
  pyLower (pyStrip ((pyStrip command).takeWhile (fun c => c ≠ ' ')))

/-- `PolicyGuard._normalize_target`. `urlparse(...).hostname or ""` is
standard-library behaviour, passed in as the `urlHostname` parameter; it is
only reached for targets containing `"://"`. -/
def normalize_target (urlHostname : Str → Str) (target : Str) : Str :=
  let candidate := pyLower (pyStrip target)
  if candidate = [] then []
  else if pyIn (("://").toList) candidate then pyLower (urlHostname candidate)
  else candidate

/-- The normalized scope set: normalized targets with the empty string
discarded (`sanitize_actions` lines 18-19), as a deduplicated list. -/
def normalizedScope (urlHostname : Str → Str) (target_scope : List Str) : List Str :=
  ((target_scope.map (normalize_target urlHostname)).filter (fun t => t ≠ [])).dedup

/-- `PolicyGuard._find_out_of_scope_targets`: candidates from both regexes
(a Python set, modelled as a deduplicated list), emptied when the command
contains the scope placeholder, then normalized and filtered against the
normalized scope. -/
def find_out_of_scope_targets (urlHostname : Str → Str) (command : Str)
    (normalized_scope : List Str) : List Str :=
  if pyIn (("<target_in_scope>").toList) (pyLower command) then []
  else
    (((ipFindall command ++ hostFindall command).dedup.map
        (normalize_target urlHostname)).filter
      (fun t => t ≠ [] ∧ t ∉ normalized_scope)).dedup

/-- Lexicographic (code-point) comparison of Python strings, the order used
by `sorted`. -/
def strLe (a b : Str) : Bool := decide (a ≤ b)

/-- `sorted(out_of_scope_targets)`. -/
def pySorted (l : List Str) : List Str := l.mergeSort strLe

/-- One pass of `PolicyGuard.sanitize_actions` over a single action. -/
def sanitizeOne (guard : PolicyGuard) (urlHostname : Str → Str)
    (normalized_scope : List Str) (action : ActionItem) : ActionItem :=
  let step1 : Option Str × List Str :=
    match action.command with
    | none => (none, [])
    | some command =>
      if guard.blocklist_patterns.any (fun p => pyIn p (pyLower command)) then
        (none, [("command removed by blocklist policy").toList])
      else (some command, [])
  let step2 : Option Str × List Str :=
    match step1 with
    | (none, reasons) => (none, reasons)
    | (some command, reasons) =>
      let tool := extract_tool command
      if tool ≠ [] ∧ tool ∉ guard.allowed_tools then
        (none, reasons ++ [("tool ").toList ++ [Char.ofNat 39] ++ tool ++
          [Char.ofNat 39] ++ (" is not in allowlist").toList])
      else (some command, reasons)
  let step3 : Option Str × List Str :=
    match step2 with
    | (none, reasons) => (none, reasons)
    | (some command, reasons) =>
      if normalized_scope ≠ [] then
        let oos := find_out_of_scope_targets urlHostname command normalized_scope
        if oos ≠ [] then
          (none, reasons ++ [("target(s) ").toList ++
            joinSep ((", ").toList) (pySorted oos) ++
            (" are out of session scope").toList])
        else (some command, reasons)
      else (some command, reasons)
  match step3 with
  | (command, []) =>
    { title := action.title, rationale := action.rationale,
      command := command, done_criteria := action.done_criteria }
  | (command, reasons) =>
    { title := action.title,
      rationale := action.rationale ++ (" (").toList ++
        joinSep (("; ").toList) reasons ++ [')'],
      command := command, done_criteria := action.done_criteria }

/-- `PolicyGuard.sanitize_actions` (`policy.py` lines 17-64). -/
def sanitize_actions (guard : PolicyGuard) (urlHostname : Str → Str)
    (actions : List ActionItem) (target_scope : List Str) : List ActionItem :=
  actions.map (sanitizeOne guard urlHostname (normalizedScope urlHostname target_scope))

/-! ## Session store (`storage/session_store.py`) -/

/-- Python error values surfaced by the embedded fallible operations:
`ValueError` from id validation and from `urlparse` on a malformed scope
entry, pydantic `ValidationError` from record parsing, `TypeError` from a
call with unexpected keyword arguments. -/
inductive PyError where
  | valueError | validationError | typeError
deriving DecidableEq, Repr

/-! ### The `urlparse` error path reachable from `PolicyGuard._normalize_target`

`_normalize_target` calls `urlparse(candidate)` whenever the candidate
contains `"://"`, and `urllib.parse.urlsplit` can raise `ValueError` there,
so `sanitize_actions` can raise while normalizing the target scope. The
unconditional bracket-mismatch guard of `urlsplit` (its
`raise ValueError("Invalid IPv6 URL")`) is modelled concretely below; the
value of `urlparse(candidate).hostname or ""` on success — together with any
further version-dependent validation, such as CPython 3.11's bracketed-host
check, which may also raise `ValueError` — is the external fallible
collaborator `uh : Str → Except PyError Str`. -/

/-- The character class `urllib.parse.scheme_chars`: ASCII letters, digits,
plus, minus, dot. -/
def isSchemeChar (c : Char) : Bool :=
  c.isAlpha || c.isDigit || c = '+' || c = '-' || c = '.'

/-- `urllib.parse.urlsplit` scheme removal: when the URL is
`scheme ++ ":" ++ rest` with a nonempty scheme that starts with an ASCII
letter and consists of scheme characters, parsing continues on `rest`,
otherwise on the whole URL. (Older CPython accepts schemes not starting
with a letter; every split this function performs is also performed by
those versions.) -/
def splitScheme (url : Str) : Str :=
  let pre := url.takeWhile (fun c => c ≠ ':')
  match pre with
  | [] => url
  | c :: _ =>
    if decide (':' ∈ url) && c.isAlpha && pre.all isSchemeChar then
      url.drop (pre.length + 1)
    else url

/-- The netloc of `urlsplit` (`_splitnetloc`): when the remainder after
scheme removal starts with `"//"`, the characters up to the first of `/`,
`?`, `#`; otherwise there is no netloc (and no bracket check, so the empty
string is returned). -/
def urlsplitNetloc (url : Str) : Str :=
  match splitScheme url with
  | '/' :: '/' :: tail => tail.takeWhile (fun c => c ≠ '/' ∧ c ≠ '?' ∧ c ≠ '#')
  | _ => []

/-- The unconditional `raise ValueError("Invalid IPv6 URL")` guard of
`urllib.parse.urlsplit`, present in every CPython 3.x: the netloc contains
one of the brackets `[`, `]` but not the other. -/
def urlsplitInvalidIPv6 (candidate : Str) : Bool :=
  let netloc := urlsplitNetloc candidate
  decide ('[' ∈ netloc) != decide (']' ∈ netloc)

/-- `PolicyGuard._normalize_target` with the `urlparse` error path: the
bracket-mismatch guard raises `ValueError`, and past it the fallible
collaborator `uh` models the rest of `urlparse(candidate).hostname or ""`
(which on CPython 3.11+ may itself raise `ValueError` for an invalid
bracketed host). -/
def normalize_targetE (uh : Str → Except PyError Str) (target : Str) :
    Except PyError Str :=
  let candidate := pyLower (pyStrip target)
  if candidate = [] then .ok []
  else if pyIn (("://").toList) candidate then
    if urlsplitInvalidIPv6 candidate then .error .valueError
    else (uh candidate).map pyLower
  else .ok candidate

/-- Left-to-right effectful map: Python evaluates the scope-normalization
set comprehension left to right and the first raise propagates. -/
def mapE (f : Str → Except PyError Str) : List Str → Except PyError (List Str)
  | [] => .ok []
  | t :: rest =>
    match f t with
    | .error e => .error e
    | .ok s => (mapE f rest).map (fun l => s :: l)

/-- The total hostname projection of a fallible collaborator. The candidates
normalized inside `_find_out_of_scope_targets` come from `IP_PATTERN` and
`HOST_PATTERN` matches, whose alphabets exclude `:` and `/`, so for them the
`"://"` test of `_normalize_target` is false, the `urlparse` branch — and
with it the error path — is unreachable, and the total projection is exact. -/
def totalize (uh : Str → Except PyError Str) : Str → Str :=
  fun c =>
    match uh c with
    | .ok h => h
    | .error _ => []

/-- The normalized scope set with the `urlparse` error path
(`sanitize_actions` lines 18-19): the comprehension over `target_scope`
propagates the first raise, then the empty string is discarded. -/
def normalizedScopeE (uh : Str → Except PyError Str) (target_scope : List Str) :
    Except PyError (List Str) :=
  (mapE (normalize_targetE uh) target_scope).map
    (fun l => (l.filter (fun t => t ≠ [])).dedup)

/-- `PolicyGuard.sanitize_actions` with the `urlparse` error path of the
scope normalization (`policy.py` line 18); past the normalization the
per-action pipeline is the pure `sanitizeOne` over the total hostname
projection, exact by the remark at `totalize`. -/
def sanitize_actionsE (guard : PolicyGuard) (uh : Str → Except PyError Str)
    (actions : List ActionItem) (target_scope : List Str) :
    Except PyError (List ActionItem) :=
  (normalizedScopeE uh target_scope).map
    (fun ns => actions.map (sanitizeOne guard (totalize uh) ns))

/-- Association-list lookup keyed by strings (used to model the on-disk
file map and keyword-argument dictionaries). -/
def lookupStr (files : List (Str × α)) (key : Str) : Option α :=
  match files with
  | [] => none
  | (k, v) :: rest => if k = key then some v else lookupStr rest key

/-- `_SAFE_ID_RE = ^[A-Za-z0-9][A-Za-z0-9_-]\x7b0,127\x7d$`: first character
alphanumeric, up to 127 further characters from `[A-Za-z0-9_-]`. (Python's
`$` would also accept one trailing newline; no identifier considered by the
claims contains a newline.) -/
def validSessionId (s : Str) : Bool :=
  match s with
  | [] => false
  | c :: rest =>
    c.isAlphanum && rest.length ≤ 127 &&
      rest.all (fun d => d.isAlphanum || d == '_' || d == '-')

/-- Python's `events[-max_events:]` where `max_events` is a runtime value:
for a positive `k` this is the last `min k (length)` elements, while `k = 0`
degenerates to `events[0:]`, the whole list. -/
def pySliceNeg (k : Nat) (l : List α) : List α :=
  if k = 0 then l else l.drop (l.length - k)

/-- The event-cap step of `SessionStore.update_session`:
`if len(session.events) > self.max_events: session.events = session.events[-self.max_events:]`. -/
def capEvents (max_events : Nat) (events : List ActivityEvent) : List ActivityEvent :=
  if events.length > max_events then pySliceNeg max_events events else events

/-- `SessionStore.update_session` (`session_store.py` lines 75-92) on the
session value it persists: apply the mutator, cap the event list, refresh
`updated_at` (the wall clock passed as `now`), and return the record that is
atomically written back. -/
def update_session (max_events : Nat) (now : Str)
    (mutator : SessionRecord → SessionRecord) (session : SessionRecord) :
    SessionRecord :=
  let s := mutator session
  { s with events := capEvents max_events s.events, updated_at := now }

/-- `SessionStore.get_session` (`session_store.py` lines 56-62) over an
association-list model of the store directory. `parse` is pydantic's
`SessionRecord.model_validate_json`, an external collaborator: `none` models
a record that fails validation, in which case the exception propagates. -/
def get_session (parse : Str → Option SessionRecord)
    (files : List (Str × Str)) (session_id : Str) :
    Except PyError (Option SessionRecord) :=
  if ¬ validSessionId session_id then .error .valueError
  else
    match lookupStr files session_id with
    | none => .ok none
    | some raw =>
      match parse raw with
      | some s => .ok (some s)
      | none => .error .validationError

/-- `SessionStore.append_events` mutator (`session_store.py` lines 120-124):
extend the event list with the ingested batch. -/
def append_events_mutator (new_events : List ActivityEvent)
    (s : SessionRecord) : SessionRecord :=
  { s with events := s.events ++ new_events }

/-- The note event built by `SessionStore.append_note`; `event_id` and
`timestamp` come from the generators `uuid4`/`utc_now`, passed in. -/
def noteEvent (event_id timestamp message : Str) : ActivityEvent :=
  { event_id := event_id, event_type := .note, timestamp := timestamp,
    payload := [((("message").toList), .jstr message),
                ((("source").toList), .jstr (("user").toList))] }

/-- `SessionStore.append_note` (`session_store.py` lines 126-134). -/
def append_note (max_events : Nat) (now event_id : Str) (session : SessionRecord)
    (message : Str) : SessionRecord :=
  update_session max_events now
    (fun s =>
      { s with
        notes := s.notes ++ [message]
        events := s.events ++ [noteEvent event_id now message] })
    session

/-! ## Vector store and retriever (`rag/store.py`, `rag/retriever.py`,
`rag/indexer.py`) -/

/-- `VectorRecord` (`rag/store.py`). Embedding components are exact
rationals standing for the floats of the numeric library. -/
structure VectorRecord where
  record_id : Str
  text : Str
  metadata : List (Str × JVal)
  embedding : List ℚ

/-- `np.dot` on equal-length vectors (the store only compares embeddings
produced by the same embedder, so lengths agree; `zipWith` truncation is
never exercised). -/
def dotQ (a b : List ℚ) : ℚ := (List.zipWith (· * ·) a b).sum

/-- `JsonVectorStore.search` (`rag/store.py` lines 98-116). `norm` is
`np.linalg.norm`, the external numeric library's Euclidean norm. Scoring and
the stable descending sort follow the source; the zero-norm query check
returns before any scoring. -/
def search (norm : List ℚ → ℚ) (records : List VectorRecord)
    (query_embedding : List ℚ) (top_k : Nat) : List (VectorRecord × ℚ) :=
  if records.isEmpty then []
  else if norm query_embedding = 0 then []
  else
    let scored := records.map (fun r =>
      let denominator := norm r.embedding * norm query_embedding
      (r, if denominator ≠ 0 then dotQ query_embedding r.embedding / denominator else 0))
    (scored.mergeSort (fun a b => decide (b.2 ≤ a.2))).take top_k

/-- `RetrievedContext` (`core/models.py`). -/
structure RetrievedContext where
  source : Str
  score : ℚ
  content : Str

/-- `REPORT_HINTS` (`rag/retriever.py`). -/
def REPORT_HINTS : List Str :=
  [("report").toList, ("template").toList, ("timeline").toList,
   ("findings").toList, ("final notes").toList]

/-- `RECON_HINTS` (`rag/retriever.py`). -/
def RECON_HINTS : List Str :=
  [("recon").toList, ("reconnaissance").toList, ("inventory").toList,
   ("service versions").toList, ("checklist").toList]

/-- `str(record.metadata.get("source", default))` used by the retriever. -/
def metadataSource (r : VectorRecord) (dflt : Str) : Str :=
  match jLookup r.metadata (("source").toList) with
  | none => dflt
  | some v => pyStr v

/-- `RagRetriever._apply_keyword_boost` (`rag/retriever.py` lines 35-59). -/
def apply_keyword_boost (query : Str) (cands : List (VectorRecord × ℚ)) :
    List (VectorRecord × ℚ) :=
  let query_lower := pyLower query
  let wants_report := REPORT_HINTS.any (fun h => pyIn h query_lower)
  let wants_recon := RECON_HINTS.any (fun h => pyIn h query_lower)
  let boosted := cands.map (fun rs =>
    let text_lower := pyLower rs.1.text
    let source_lower := pyLower (metadataSource rs.1 [])
    let boost1 : ℚ :=
      if wants_report ∧ (pyIn (("report").toList) source_lower ∨
          pyIn (("template").toList) source_lower ∨
          pyIn (("report").toList) text_lower) then 3/20 else 0
    let boost2 : ℚ :=
      if wants_recon ∧ (pyIn (("recon").toList) text_lower ∨
          pyIn (("checklist").toList) source_lower ∨
          pyIn (("recon").toList) source_lower) then 1/10 else 0
    (rs.1, rs.2 + boost1 + boost2))
  boosted.mergeSort (fun a b => decide (b.2 ≤ a.2))

/-- `RagRetriever._apply_focus_filter` (`rag/retriever.py` lines 61-86). -/
def apply_focus_filter (query : Str) (cands : List (VectorRecord × ℚ)) :
    List (VectorRecord × ℚ) :=
  let query_lower := pyLower query
  let wants_report := REPORT_HINTS.any (fun h => pyIn h query_lower)
  let wants_recon := RECON_HINTS.any (fun h => pyIn h query_lower)
  if ¬ wants_report ∧ ¬ wants_recon then cands
  else
    let filtered := cands.filter (fun rs =>
      let text_lower := pyLower rs.1.text
      let source_lower := pyLower (metadataSource rs.1 [])
      if wants_report ∧ (pyIn (("report").toList) source_lower ∨
          pyIn (("template").toList) source_lower ∨
          pyIn (("report").toList) text_lower) then true
      else if wants_recon ∧ (pyIn (("recon").toList) text_lower ∨
          pyIn (("checklist").toList) source_lower ∨
          pyIn (("recon").toList) source_lower) then true
      else false)
    if filtered.isEmpty then cands else filtered

/-- `RagRetriever.query` (`rag/retriever.py` lines 16-32). `embed` is the
embedding provider (`embedder.embed_texts([text])[0]`), an external
collaborator. -/
def retriever_query (embed : Str → List ℚ) (norm : List ℚ → ℚ)
    (records : List VectorRecord) (text : Str) (top_k : Nat) :
    List RetrievedContext :=
  let stripped := pyStrip text
  if stripped = [] then []
  else
    let query_embedding := embed stripped
    let candidate_k := max (top_k * 2) top_k
    let cands := search norm records query_embedding candidate_k
    let boosted := apply_keyword_boost stripped cands
    let focused := apply_focus_filter stripped boosted
    (focused.take top_k).map (fun rs =>
      { source := metadataSource rs.1 (("unknown").toList),
        score := rs.2, content := rs.1.text })

/-- The on-disk record sets a reader (or a crash) can observe during
`JsonVectorStore.write_records` (`rag/store.py` lines 36-55): the file is
opened with mode `"w"`, truncating it in place, and the new records are then
written sequentially — so the observable states are the old record set
(before the call), the empty set (after truncation), and every prefix of the
new record set, ending in the complete new set. No temporary file or atomic
rename is involved. -/
def write_records_observable (old new_records : List VectorRecord) :
    List (List VectorRecord) :=
  old :: (List.range (new_records.length + 1)).map (fun i => new_records.take i)

/-! ## Suggest flow (`services/assistant_service.py`) -/

/-- `SuggestResponse` (`core/models.py`). -/
structure SuggestResponse where
  session_id : Str
  phase : PhaseName
  phase_confidence : ℚ
  missing_artifacts : List Str
  reasoning : Str
  actions : List ActionItem
  retrieved_context : List RetrievedContext
  episode_summary : Str

/-- The keyword parameters accepted by `AssistantWorkflow.run`
(`graph/workflow.py` line 43): `memory_mode` and `history_window` only. -/
def workflowRunKwargs : List Str :=
  [("memory_mode").toList, ("history_window").toList]

/-- The keyword arguments `AssistantService.suggest` passes to
`workflow.run` (`assistant_service.py` lines 108-114). -/
def suggestCallKwargs : List Str :=
  [("memory_mode").toList, ("history_window").toList,
   ("phase_override").toList, ("rag_focus").toList]

/-- Python call binding: a keyword call raises `TypeError` unless every
keyword argument names a declared parameter. -/
def workflowCallAccepted : Bool :=
  suggestCallKwargs.all (fun k => decide (k ∈ workflowRunKwargs))

/-- `AssistantService.suggest` (`assistant_service.py` lines 91-147) on the
session value: optional note append (Python truthiness: an empty
`user_message` does not append), fingerprint computation (`computeFp`
abstracts `_compute_suggest_fingerprint` over the fetched session), cache
lookup with `model_validate` (`decode`; `none` models a `ValidationError`,
swallowed by the `except` and treated as a miss), then the pipeline call —
which Python rejects with `TypeError` because `workflow.run` does not accept
the `phase_override`/`rag_focus` keywords. The returned flag records whether
the workflow (retrieval, classification and the reasoning collaborator) was
invoked. -/
def suggest (max_events : Nat) (now event_id : Str)
    (computeFp : SessionRecord → SuggestRequest → Str)
    (decode : JVal → Option SuggestResponse)
    (pipeline : SessionRecord → SuggestRequest → SuggestResponse)
    (session : SessionRecord) (request : SuggestRequest) :
    Except PyError (SuggestResponse × Bool) :=
  let s := match request.user_message with
    | some m => if m = [] then session else append_note max_events now event_id session m
    | none => session
  let fingerprint := computeFp s request
  let cached : Option SuggestResponse :=
    match s.cached_suggest with
    | some c => if c.fingerprint = fingerprint then decode c.payload else none
    | none => none
  match cached with
  | some resp => .ok (resp, false)
  | none =>
    if workflowCallAccepted then .ok (pipeline s request, true)
    else .error .typeError

/-! ## Canonical JSON serialization (`assistant_service.py` lines 190-227)

`json.dumps(payload, ensure_ascii=True, sort_keys=True, separators=(",", ":"))`
is modelled by `pyJsonDumpsSorted`: serialization of the recursively
key-sorted value, with CPython's `ensure_ascii` string escaping. A parser and
a round-trip theorem below establish that the serialization is injective, the
substance of the fingerprint-sensitivity claim. -/

/-- Lowercase hex digit. -/
def hexDigit (n : Nat) : Char :=
  if n < 10 then Char.ofNat (48 + n) else Char.ofNat (87 + n)

/-- Four-digit lowercase hex of `n < 0x10000` (`\uXXXX` body). -/
def hex4 (n : Nat) : Str :=
  [hexDigit (n / 4096 % 16), hexDigit (n / 256 % 16),
   hexDigit (n / 16 % 16), hexDigit (n % 16)]

/-- CPython `json` escaping of one character with `ensure_ascii=True`:
short escapes for quote, backslash and the five control shorthands, `\uXXXX`
for other characters outside `0x20..0x7e` (a surrogate pair beyond the basic
plane), the character itself otherwise. -/
def escChar (c : Char) : Str :=
  if c = '"' then ['\\', '"']
  else if c = '\\' then ['\\', '\\']
  else if c = '\x08' then ['\\', 'b']
  else if c = '\x0c' then ['\\', 'f']
  else if c = '\n' then ['\\', 'n']
  else if c = '\r' then ['\\', 'r']
  else if c = '\t' then ['\\', 't']
  else if c.toNat < 32 ∨ 126 < c.toNat then
    if c.toNat < 65536 then '\\' :: 'u' :: hex4 c.toNat
    else
      let n := c.toNat - 65536
      ('\\' :: 'u' :: hex4 (55296 + n / 1024)) ++ ('\\' :: 'u' :: hex4 (56320 + n % 1024))
  else [c]

/-- JSON escaping of a string body. -/
def escStr (s : Str) : Str := s.flatMap escChar

/-- A JSON string token. -/
def quoteJ (s : Str) : Str := '"' :: escStr s ++ ['"']

mutual

/-- JSON serialization of a value with compact separators `(",", ":")`,
object keys emitted in stored order (`pyJsonDumpsSorted` sorts first). -/
def dumpsJ : JVal → Str
  | .jnull => ("null").toList
  | .jbool true => ("true").toList
  | .jbool false => ("false").toList
  | .jint n => intRepr n
  | .jstr s => quoteJ s
  | .jarr l => '[' :: dumpsArr l ++ [']']
  | .jobj l => '\x7b' :: dumpsObj l ++ ['\x7d']

def dumpsArr : List JVal → Str
  | [] => []
  | [v] => dumpsJ v
  | v :: t => dumpsJ v ++ ',' :: dumpsArr t

def dumpsObj : List (Str × JVal) → Str
  | [] => []
  | [p] => quoteJ p.1 ++ ':' :: dumpsJ p.2
  | p :: t => (quoteJ p.1 ++ ':' :: dumpsJ p.2) ++ ',' :: dumpsObj t

end

/-- Insertion step of the key sort applied by `sort_keys=True`. -/
def insertPair (p : Str × JVal) : List (Str × JVal) → List (Str × JVal)
  | [] => [p]
  | q :: t => if strLe p.1 q.1 then p :: q :: t else q :: insertPair p t

/-- Sort an object's pairs by key (dict keys are distinct, so any comparison
sort agrees with Python's). -/
def sortPairs : List (Str × JVal) → List (Str × JVal)
  | [] => []
  | p :: t => insertPair p (sortPairs t)

mutual

/-- Recursively sort every object's keys: the canonicalization performed by
`json.dumps(..., sort_keys=True)`. -/
def normJ : JVal → JVal
  | .jarr l => .jarr (normArr l)
  | .jobj l => .jobj (sortPairs (normObj l))
  | v => v

def normArr : List JVal → List JVal
  | [] => []
  | v :: t => normJ v :: normArr t

def normObj : List (Str × JVal) → List (Str × JVal)
  | [] => []
  | p :: t => (p.1, normJ p.2) :: normObj t

end

/-- `json.dumps(payload, ensure_ascii=True, sort_keys=True,
separators=(",", ":"))`. -/
def pyJsonDumpsSorted (v : JVal) : Str := dumpsJ (normJ v)

/-- Value of a lowercase hex digit character. -/
def hexVal (c : Char) : Nat := if c.toNat ≤ 57 then c.toNat - 48 else c.toNat - 87

/-- Value of a 4-digit hex quadruple. -/
def hexVal4 (h1 h2 h3 h4 : Char) : Nat :=
  ((hexVal h1 * 16 + hexVal h2) * 16 + hexVal h3) * 16 + hexVal h4

/-- Parser for a JSON string body (after the opening quote), fuelled; decodes
the escapes emitted by `escChar`, combining surrogate pairs. Proof artifact:
used only to establish injectivity of the serializer. -/
def parseStrBody : Nat → Str → Option (Str × Str)
  | 0, _ => none
  | _ + 1, [] => none
  | fuel + 1, c :: rest =>
    if c = '"' then some ([], rest)
    else if c = '\\' then
      match rest with
      | [] => none
      | e :: r =>
        if e = '"' then (parseStrBody fuel r).map (fun pr => ('"' :: pr.1, pr.2))
        else if e = '\\' then (parseStrBody fuel r).map (fun pr => ('\\' :: pr.1, pr.2))
        else if e = 'b' then (parseStrBody fuel r).map (fun pr => ('\x08' :: pr.1, pr.2))
        else if e = 'f' then (parseStrBody fuel r).map (fun pr => ('\x0c' :: pr.1, pr.2))
        else if e = 'n' then (parseStrBody fuel r).map (fun pr => ('\n' :: pr.1, pr.2))
        else if e = 'r' then (parseStrBody fuel r).map (fun pr => ('\r' :: pr.1, pr.2))
        else if e = 't' then (parseStrBody fuel r).map (fun pr => ('\t' :: pr.1, pr.2))
        else if e = 'u' then
          match r with
          | h1 :: h2 :: h3 :: h4 :: r2 =>
            let n := hexVal4 h1 h2 h3 h4
            if 55296 ≤ n ∧ n < 56320 then
              match r2 with
              | '\\' :: 'u' :: g1 :: g2 :: g3 :: g4 :: r3 =>
                let m := hexVal4 g1 g2 g3 g4
                (parseStrBody fuel r3).map (fun pr =>
                  (Char.ofNat (65536 + (n - 55296) * 1024 + (m - 56320)) :: pr.1, pr.2))
              | _ => none
            else (parseStrBody fuel r2).map (fun pr => (Char.ofNat n :: pr.1, pr.2))
          | _ => none
        else none
    else (parseStrBody fuel rest).map (fun pr => (c :: pr.1, pr.2))

/-- Maximal leading digit run and the remainder. -/
def digitRun (s : Str) : Str × Str := (s.takeWhile Char.isDigit, s.dropWhile Char.isDigit)

/-- Numeric value of a decimal digit string. -/
def natFromDigits (ds : Str) : Nat := ds.foldl (fun a c => 10 * a + (c.toNat - 48)) 0

/-- The continuation after a serialized value is digit-free at its head, so
the maximal-munch number parser stops exactly at the value boundary. -/
def restSafe (s : Str) : Bool :=
  match s with
  | [] => true
  | c :: _ => ¬ c.isDigit

mutual

/-- Fuelled JSON value parser (proof artifact for serializer injectivity). -/
def parseJ : Nat → Str → Option (JVal × Str)
  | 0, _ => none
  | _ + 1, [] => none
  | fuel + 1, c :: r =>
    if c = '"' then (parseStrBody fuel r).map (fun pr => (.jstr pr.1, pr.2))
    else if c = '[' then (parseArrTail fuel r).map (fun pr => (.jarr pr.1, pr.2))
    else if c = '\x7b' then (parseObjTail fuel r).map (fun pr => (.jobj pr.1, pr.2))
    else if c = '-' then
      match digitRun r with
      | (ds, r2) => if ds = [] then none else some (.jint (-(natFromDigits ds : Int)), r2)
    else if c.isDigit then
      match digitRun (c :: r) with
      | (ds, r2) => some (.jint (natFromDigits ds), r2)
    else if c = 'n' then
      match r with
      | 'u' :: 'l' :: 'l' :: r2 => some (.jnull, r2)
      | _ => none
    else if c = 't' then
      match r with
      | 'r' :: 'u' :: 'e' :: r2 => some (.jbool true, r2)
      | _ => none
    else if c = 'f' then
      match r with
      | 'a' :: 'l' :: 's' :: 'e' :: r2 => some (.jbool false, r2)
      | _ => none
    else none

/-- Parses `elem (, elem)* ]` or `]`, the tail of an array literal. -/
def parseArrTail : Nat → Str → Option (List JVal × Str)
  | 0, _ => none
  | _ + 1, [] => none
  | fuel + 1, c :: r =>
    if c = ']' then some ([], r)
    else
      match parseJ fuel (c :: r) with
      | none => none
      | some (v, r1) =>
        match r1 with
        | ',' :: r2 =>
          match parseArrTail fuel r2 with
          | some (t, r3) => if t.isEmpty then none else some (v :: t, r3)
          | none => none
        | ']' :: r2 => some ([v], r2)
        | _ => none

/-- Parses `pair (, pair)* \x7d` or `\x7d`, the tail of an object literal. -/
def parseObjTail : Nat → Str → Option (List (Str × JVal) × Str)
  | 0, _ => none
  | _ + 1, [] => none
  | fuel + 1, c :: r =>
    if c = '\x7d' then some ([], r)
    else if c = '"' then
      match parseStrBody fuel r with
      | none => none
      | some (k, r1) =>
        match r1 with
        | ':' :: r2 =>
          match parseJ fuel r2 with
          | none => none
          | some (v, r3) =>
            match r3 with
            | ',' :: r4 =>
              match parseObjTail fuel r4 with
              | some (t, r5) => if t.isEmpty then none else some ((k, v) :: t, r5)
              | none => none
            | '\x7d' :: r4 => some ([(k, v)], r4)
            | _ => none
        | _ => none
    else none

end

mutual

/-- Fuel sufficient for `parseJ` to consume `dumpsJ v`. -/
def reqJ : JVal → Nat
  | .jnull => 1
  | .jbool _ => 1
  | .jint _ => 1
  | .jstr s => s.length + 2
  | .jarr l => 1 + reqArr l
  | .jobj l => 1 + reqObj l

def reqArr : List JVal → Nat
  | [] => 1
  | v :: t => 1 + max (reqJ v) (reqArr t)

def reqObj : List (Str × JVal) → Nat
  | [] => 1
  | p :: t => 1 + max (p.1.length + 1) (max (reqJ p.2) (reqObj t))

end

/-! ### Injectivity of the serializer, via a parse round trip -/

theorem hexVal_hexDigit (d : Nat) (h : d < 16) : hexVal (hexDigit d) = d := by
  interval_cases d <;> decide

theorem hexVal4_hex4 (n : Nat) (h : n < 65536) :
    hexVal4 (hexDigit (n / 4096 % 16)) (hexDigit (n / 256 % 16))
      (hexDigit (n / 16 % 16)) (hexDigit (n % 16)) = n := by
  unfold hexVal4
  rw [hexVal_hexDigit _ (Nat.mod_lt _ (by norm_num)),
      hexVal_hexDigit _ (Nat.mod_lt _ (by norm_num)),
      hexVal_hexDigit _ (Nat.mod_lt _ (by norm_num)),
      hexVal_hexDigit _ (Nat.mod_lt _ (by norm_num))]
  omega

theorem char_valid_nat (c : Char) :
    c.toNat < 55296 ∨ (57343 < c.toNat ∧ c.toNat < 1114112) := by
  have h := c.valid
  simp only [UInt32.isValidChar, Nat.isValidChar] at h
  exact h

theorem parseStrBody_esc (s : Str) : ∀ fuel rest, s.length < fuel →
    parseStrBody fuel (escStr s ++ '"' :: rest) = some (s, rest) := by
  induction s with
  | nil =>
    intro fuel rest h
    obtain ⟨f, rfl⟩ : ∃ f, fuel = f + 1 := ⟨fuel - 1, by omega⟩
    simp [escStr, parseStrBody]
  | cons c cs ih =>
    intro fuel rest h
    obtain ⟨f, rfl⟩ : ∃ f, fuel = f + 1 := ⟨fuel - 1, by omega⟩
    have hcs : cs.length < f := by simp at h; omega
    have hih := ih f rest hcs
    have hesc : escStr (c :: cs) = escChar c ++ escStr cs := by
      simp [escStr]
    rw [hesc]
    by_cases h1 : c = '"'
    · subst h1; simp [escChar, parseStrBody, hih]
    by_cases h2 : c = '\\'
    · subst h2; simp [escChar, parseStrBody, hih]
    by_cases h3 : c = '\x08'
    · subst h3; simp [escChar, parseStrBody, hih]
    by_cases h4 : c = '\x0c'
    · subst h4; simp [escChar, parseStrBody, hih]
    by_cases h5 : c = '\n'
    · subst h5; simp [escChar, parseStrBody, hih]
    by_cases h6 : c = '\r'
    · subst h6; simp [escChar, parseStrBody, hih]
    by_cases h7 : c = '\t'
    · subst h7; simp [escChar, parseStrBody, hih]
    by_cases h8 : c.toNat < 32 ∨ 126 < c.toNat
    · by_cases h9 : c.toNat < 65536
      · have hval := char_valid_nat c
        have hns : ¬(55296 ≤ hexVal4 (hexDigit (c.toNat / 4096 % 16))
            (hexDigit (c.toNat / 256 % 16)) (hexDigit (c.toNat / 16 % 16))
            (hexDigit (c.toNat % 16)) ∧ hexVal4 (hexDigit (c.toNat / 4096 % 16))
            (hexDigit (c.toNat / 256 % 16)) (hexDigit (c.toNat / 16 % 16))
            (hexDigit (c.toNat % 16)) < 56320) := by
          rw [hexVal4_hex4 _ h9]; omega
        simp only [escChar, if_neg h1, if_neg h2, if_neg h3, if_neg h4, if_neg h5,
          if_neg h6, if_neg h7, if_pos h8, if_pos h9, hex4]
        simp only [List.cons_append, List.nil_append, List.append_assoc]
        simp only [parseStrBody]
        rw [if_neg hns]
        rw [hexVal4_hex4 _ h9]
        simp [hih, Char.ofNat_toNat]
      · have h10 : 65536 ≤ c.toNat := by omega
        have hval := char_valid_nat c
        have hhi : 55296 + (c.toNat - 65536) / 1024 < 65536 := by omega
        have hlo : 56320 + (c.toNat - 65536) % 1024 < 65536 := by
          have := Nat.mod_lt (c.toNat - 65536) (show 0 < 1024 by norm_num)
          omega
        have hsr : 55296 ≤ hexVal4 (hexDigit ((55296 + (c.toNat - 65536) / 1024) / 4096 % 16))
            (hexDigit ((55296 + (c.toNat - 65536) / 1024) / 256 % 16))
            (hexDigit ((55296 + (c.toNat - 65536) / 1024) / 16 % 16))
            (hexDigit ((55296 + (c.toNat - 65536) / 1024) % 16)) ∧
            hexVal4 (hexDigit ((55296 + (c.toNat - 65536) / 1024) / 4096 % 16))
            (hexDigit ((55296 + (c.toNat - 65536) / 1024) / 256 % 16))
            (hexDigit ((55296 + (c.toNat - 65536) / 1024) / 16 % 16))
            (hexDigit ((55296 + (c.toNat - 65536) / 1024) % 16)) < 56320 := by
          rw [hexVal4_hex4 _ hhi]
          have := Nat.div_lt_iff_lt_mul (show 0 < 1024 by norm_num)
            (x := c.toNat - 65536) (y := 1024)
          omega
        simp only [escChar, if_neg h1, if_neg h2, if_neg h3, if_neg h4, if_neg h5,
          if_neg h6, if_neg h7, if_pos h8, if_neg (by omega : ¬ c.toNat < 65536), hex4]
        simp only [List.cons_append, List.nil_append, List.append_assoc]
        simp only [parseStrBody]
        rw [if_pos hsr]
        rw [hexVal4_hex4 _ hhi, hexVal4_hex4 _ hlo]
        have hc : 65536 + (55296 + (c.toNat - 65536) / 1024 - 55296) * 1024 +
            (56320 + (c.toNat - 65536) % 1024 - 56320) = c.toNat := by omega
        rw [hc]
        simp [hih, Char.ofNat_toNat]
    · have hesc2 : escChar c = [c] := by
        simp [escChar, if_neg h1, if_neg h2, if_neg h3, if_neg h4, if_neg h5,
          if_neg h6, if_neg h7, if_neg h8]
      rw [hesc2]
      simp only [List.cons_append, List.nil_append, parseStrBody, if_neg h1, if_neg h2]
      simp [hih]

theorem natRepr_ne_nil (n : Nat) : natRepr n ≠ [] := by
  unfold natRepr
  split
  · simp
  · rename_i h
    have hd : Nat.digits 10 n ≠ [] := by
      simpa [Nat.digits_ne_nil_iff_ne_zero] using h
    simp [hd]

theorem natRepr_all_digits (n : Nat) : ∀ c ∈ natRepr n, c.isDigit := by
  unfold natRepr
  split
  · intro c hc; simp at hc; subst hc; decide
  · intro c hc
    simp only [List.mem_reverse, List.mem_map] at hc
    obtain ⟨d, hd, rfl⟩ := hc
    have hlt : d < 10 := Nat.digits_lt_base (by norm_num) hd
    interval_cases d <;> decide

theorem natFromDigits_aux (l : List Nat) (h : ∀ d ∈ l, d < 10) :
    ((l.map (fun d => Char.ofNat (48 + d))).reverse.foldl
      (fun a c => 10 * a + (c.toNat - 48)) 0) = Nat.ofDigits 10 l := by
  induction l with
  | nil => simp [Nat.ofDigits]
  | cons d t ih =>
    have hd : d < 10 := h d (by simp)
    have ht : ∀ e ∈ t, e < 10 := fun e he => h e (by simp [he])
    have hchar : (Char.ofNat (48 + d)).toNat - 48 = d := by
      interval_cases d <;> decide
    simp only [List.map_cons, List.reverse_cons, List.foldl_append, List.foldl_cons,
      List.foldl_nil, ih ht, hchar, Nat.ofDigits_cons]
    ring

theorem natFromDigits_natRepr (n : Nat) : natFromDigits (natRepr n) = n := by
  unfold natFromDigits natRepr
  split
  · rename_i h; subst h; decide
  · rw [natFromDigits_aux _ (fun d hd => Nat.digits_lt_base (by norm_num) hd)]
    exact Nat.ofDigits_digits 10 n

theorem digitRun_append (ds rest : Str) (h1 : ∀ c ∈ ds, c.isDigit)
    (h2 : restSafe rest) : digitRun (ds ++ rest) = (ds, rest) := by
  induction ds with
  | nil =>
    simp only [List.nil_append, digitRun]
    cases rest with
    | nil => simp
    | cons c t =>
      have : ¬ c.isDigit := by simpa [restSafe] using h2
      simp [List.takeWhile, List.dropWhile, this]
  | cons c t ih =>
    have hc : c.isDigit := h1 c (by simp)
    have ht : ∀ d ∈ t, d.isDigit := fun d hd => h1 d (by simp [hd])
    have hpair := ih ht
    simp only [digitRun, Prod.mk.injEq] at hpair ⊢
    simp [List.takeWhile, List.dropWhile, hc, hpair.1, hpair.2]

theorem isDigit_ne (c : Char) (h : c.isDigit) :
    c ≠ '"' ∧ c ≠ '[' ∧ c ≠ '\x7b' ∧ c ≠ '-' ∧ c ≠ ']' := by
  refine ⟨?_, ?_, ?_, ?_, ?_⟩ <;> (intro he; subst he; simp [Char.isDigit] at h)

theorem dumpsJ_head (v : JVal) : ∃ c cs, dumpsJ v = c :: cs ∧ c ≠ ']' := by
  cases v with
  | jnull => exact ⟨'n', _, rfl, by decide⟩
  | jbool b =>
    cases b with
    | false => exact ⟨'f', _, rfl, by decide⟩
    | true => exact ⟨'t', _, rfl, by decide⟩
  | jint n =>
    by_cases h : n < 0
    · refine ⟨'-', natRepr n.natAbs, ?_, by decide⟩
      simp [dumpsJ, intRepr, h]
    · obtain ⟨c, cs, hc⟩ : ∃ c cs, natRepr n.natAbs = c :: cs := by
        cases he : natRepr n.natAbs with
        | nil => exact absurd he (natRepr_ne_nil _)
        | cons c cs => exact ⟨c, cs, rfl⟩
      have hd : c.isDigit := natRepr_all_digits n.natAbs c (by simp [hc])
      refine ⟨c, cs, ?_, (isDigit_ne c hd).2.2.2.2⟩
      simp [dumpsJ, intRepr, h, hc]
  | jstr s => exact ⟨'"', _, rfl, by decide⟩
  | jarr l => exact ⟨'[', _, rfl, by decide⟩
  | jobj l => exact ⟨'\x7b', _, rfl, by decide⟩

theorem reqJ_pos (v : JVal) : 1 ≤ reqJ v := by
  cases v <;> simp [reqJ]

theorem parse_dumps (fuel : Nat) :
    (∀ v rest, reqJ v ≤ fuel → restSafe rest →
      parseJ fuel (dumpsJ v ++ rest) = some (v, rest)) ∧
    (∀ l rest, reqArr l ≤ fuel →
      parseArrTail fuel (dumpsArr l ++ ']' :: rest) = some (l, rest)) ∧
    (∀ l rest, reqObj l ≤ fuel →
      parseObjTail fuel (dumpsObj l ++ '\x7d' :: rest) = some (l, rest)) := by
  induction fuel with
  | zero =>
    refine ⟨fun v rest hreq _ => absurd hreq ?_, fun l rest hreq => absurd hreq ?_,
      fun l rest hreq => absurd hreq ?_⟩
    · have := reqJ_pos v; omega
    · cases l <;> simp [reqArr]
    · cases l <;> simp [reqObj]
  | succ f ih =>
    obtain ⟨ihJ, ihA, ihO⟩ := ih
    refine ⟨?_, ?_, ?_⟩
    · intro v rest hreq hsafe
      cases v with
      | jnull => simp [dumpsJ, parseJ]
      | jbool b => cases b <;> simp [dumpsJ, parseJ]
      | jint n =>
        by_cases hn : n < 0
        · have hdr := digitRun_append (natRepr n.natAbs) rest (natRepr_all_digits _) hsafe
          have hne := natRepr_ne_nil n.natAbs
          have hval : -((natFromDigits (natRepr n.natAbs) : Int)) = n := by
            rw [natFromDigits_natRepr]; omega
          simp only [dumpsJ, intRepr, if_pos hn, List.cons_append]
          simp only [parseJ]
          rw [hdr]
          simp [hne, hval]
        · obtain ⟨c, cs, hc⟩ : ∃ c cs, natRepr n.natAbs = c :: cs := by
            cases he : natRepr n.natAbs with
            | nil => exact absurd he (natRepr_ne_nil _)
            | cons c cs => exact ⟨c, cs, rfl⟩
          have hd : c.isDigit := natRepr_all_digits n.natAbs c (by simp [hc])
          have hnb := isDigit_ne c hd
          have hdr := digitRun_append (natRepr n.natAbs) rest (natRepr_all_digits _) hsafe
          have hval : ((natFromDigits (natRepr n.natAbs) : Int)) = n := by
            rw [natFromDigits_natRepr]; omega
          simp only [dumpsJ, intRepr, if_neg hn, hc, List.cons_append]
          simp only [parseJ]
          rw [if_neg hnb.1, if_neg hnb.2.1, if_neg hnb.2.2.1, if_neg hnb.2.2.2.1,
            if_pos hd]
          rw [show c :: (cs ++ rest) = (c :: cs) ++ rest by simp, ← hc, hdr]
          simp [hval]
      | jstr s =>
        have hlen : s.length < f := by simp [reqJ] at hreq; omega
        have hps := parseStrBody_esc s f rest hlen
        simp only [dumpsJ, quoteJ, List.cons_append, List.append_assoc, List.nil_append]
        simp only [parseJ]
        simp [hps]
      | jarr l =>
        have hA := ihA l rest (by simp [reqJ] at hreq; omega)
        simp only [dumpsJ, List.cons_append, List.append_assoc, List.nil_append]
        simp only [parseJ]
        simp [hA]
      | jobj l =>
        have hO := ihO l rest (by simp [reqJ] at hreq; omega)
        simp only [dumpsJ, List.cons_append, List.append_assoc, List.nil_append]
        simp only [parseJ]
        simp [hO]
    · intro l rest hreq
      cases l with
      | nil => simp [dumpsArr, parseArrTail]
      | cons v t =>
        obtain ⟨c, cs, hvc, hcne⟩ := dumpsJ_head v
        cases t with
        | nil =>
          have hJ := ihJ v (']' :: rest) (by simp [reqArr] at hreq; omega)
            (by simp [restSafe])
          rw [hvc] at hJ
          simp only [dumpsArr, hvc, List.cons_append] at hJ ⊢
          simp only [parseArrTail, if_neg hcne]
          rw [hJ]
          simp
        | cons w t2 =>
          have hJ := ihJ v (',' :: (dumpsArr (w :: t2) ++ ']' :: rest))
            (by simp [reqArr] at hreq; omega) (by simp [restSafe])
          have hA := ihA (w :: t2) rest (by simp [reqArr] at hreq ⊢; omega)
          rw [hvc] at hJ
          simp only [dumpsArr, hvc, List.cons_append, List.append_assoc] at hJ ⊢
          simp only [parseArrTail, if_neg hcne]
          rw [hJ]
          simp [hA]
    · intro l rest hreq
      cases l with
      | nil => simp [dumpsObj, parseObjTail]
      | cons p t =>
        cases t with
        | nil =>
          have hk : p.1.length < f := by simp [reqObj] at hreq; omega
          have hJ := ihJ p.2 ('\x7d' :: rest) (by simp [reqObj] at hreq; omega)
            (by simp [restSafe])
          have hps := parseStrBody_esc p.1 f (':' :: (dumpsJ p.2 ++ '\x7d' :: rest)) hk
          simp only [dumpsObj, quoteJ, List.cons_append, List.append_assoc, List.nil_append]
          simp only [parseObjTail]
          simp [hps, hJ]
        | cons q t2 =>
          have hk : p.1.length < f := by simp [reqObj] at hreq; omega
          have hJ := ihJ p.2 (',' :: (dumpsObj (q :: t2) ++ '\x7d' :: rest))
            (by simp [reqObj] at hreq; omega) (by simp [restSafe])
          have hO := ihO (q :: t2) rest (by simp [reqObj] at hreq ⊢; omega)
          have hps := parseStrBody_esc p.1 f
            (':' :: (dumpsJ p.2 ++ ',' :: (dumpsObj (q :: t2) ++ '\x7d' :: rest))) hk
          simp only [dumpsObj, quoteJ, List.cons_append, List.append_assoc, List.nil_append]
          simp only [parseObjTail]
          simp [hps, hJ, hO]

theorem dumpsJ_inj (v w : JVal) (h : dumpsJ v = dumpsJ w) : v = w := by
  have hv := (parse_dumps (max (reqJ v) (reqJ w))).1 v [] (le_max_left _ _)
    (by simp [restSafe])
  have hw := (parse_dumps (max (reqJ v) (reqJ w))).1 w [] (le_max_right _ _)
    (by simp [restSafe])
  rw [List.append_nil] at hv hw
  rw [h, hw] at hv
  simp only [Option.some.injEq, Prod.mk.injEq] at hv
  exact hv.1.symm

/-- A JSON value in the canonical form produced by parsing real Python data:
object keys are distinct and strictly sorted (recursively). Python dicts have
distinct keys, and an order-insensitive model of a dict is its key-sorted
association list, so every payload value is represented canonically. -/
inductive JCanon : JVal → Prop where
  | jnull : JCanon .jnull
  | jbool (b : Bool) : JCanon (.jbool b)
  | jint (n : Int) : JCanon (.jint n)
  | jstr (s : Str) : JCanon (.jstr s)
  | jarr (l : List JVal) : (∀ v ∈ l, JCanon v) → JCanon (.jarr l)
  | jobj (l : List (Str × JVal)) : List.Pairwise (fun p q => p.1 < q.1) l →
      (∀ p ∈ l, JCanon p.2) → JCanon (.jobj l)

theorem insertPair_lt (p : Str × JVal) (t : List (Str × JVal))
    (h : ∀ q ∈ t, p.1 < q.1) : insertPair p t = p :: t := by
  cases t with
  | nil => rfl
  | cons q t2 =>
    have hle : strLe p.1 q.1 = true := by
      simp only [strLe, decide_eq_true_eq]
      exact le_of_lt (h q (by simp))
    simp [insertPair, hle]

theorem sortPairs_sorted_id (l : List (Str × JVal))
    (h : List.Pairwise (fun p q => p.1 < q.1) l) : sortPairs l = l := by
  induction l with
  | nil => rfl
  | cons p t ih =>
    rw [List.pairwise_cons] at h
    rw [sortPairs, ih h.2, insertPair_lt p t h.1]

theorem normArr_id (l : List JVal) (h : ∀ v ∈ l, normJ v = v) : normArr l = l := by
  induction l with
  | nil => rfl
  | cons v t ih =>
    rw [normArr, h v (by simp), ih (fun w hw => h w (by simp [hw]))]

theorem normObj_id (l : List (Str × JVal)) (h : ∀ p ∈ l, normJ p.2 = p.2) :
    normObj l = l := by
  induction l with
  | nil => rfl
  | cons p t ih =>
    rw [normObj, h p (by simp), ih (fun q hq => h q (by simp [hq]))]

theorem normJ_canon (v : JVal) (h : JCanon v) : normJ v = v := by
  induction h with
  | jnull => rfl
  | jbool b => rfl
  | jint n => rfl
  | jstr s => rfl
  | jarr l hmem ih => rw [normJ, normArr_id l ih]
  | jobj l hsort hmem ih =>
    rw [normJ, normObj_id l ih, sortPairs_sorted_id l hsort]

/-! ### The suggestion fingerprint (`_compute_suggest_fingerprint`) -/

/-- The serialized phase literal. -/
def phaseStr : PhaseName → Str
  | .recon => ("recon").toList
  | .enumeration => ("enumeration").toList
  | .hypothesis => ("hypothesis").toList
  | .attempt => ("attempt").toList
  | .post_check => ("post_check").toList
  | .report => ("report").toList

/-- The serialized event-type literal. -/
def eventTypeStr : EventType → Str
  | .command => ("command").toList
  | .http => ("http").toList
  | .scan => ("scan").toList
  | .note => ("note").toList
  | .system => ("system").toList

/-- The serialized memory-mode literal. -/
def memoryModeStr : MemoryMode → Str
  | .summary => ("summary").toList
  | .window => ("window").toList
  | .full => ("full").toList

/-- The serialized retrieval-focus literal. -/
def ragFocusStr : RagFocus → Str
  | .auto => ("auto").toList
  | .recon => ("recon").toList
  | .report => ("report").toList

/-- `request.phase_override` serialized: `null` or the phase literal. -/
def phaseOverrideJ : Option PhaseName → JVal
  | none => .jnull
  | some p => .jstr (phaseStr p)

theorem phaseStr_inj (a b : PhaseName) (h : phaseStr a = phaseStr b) : a = b := by
  cases a <;> cases b <;> revert h <;> decide

theorem eventTypeStr_inj (a b : EventType) (h : eventTypeStr a = eventTypeStr b) :
    a = b := by
  cases a <;> cases b <;> revert h <;> decide

theorem memoryModeStr_inj (a b : MemoryMode) (h : memoryModeStr a = memoryModeStr b) :
    a = b := by
  cases a <;> cases b <;> revert h <;> decide

theorem ragFocusStr_inj (a b : RagFocus) (h : ragFocusStr a = ragFocusStr b) :
    a = b := by
  cases a <;> cases b <;> revert h <;> decide

/-- The exact inputs the fingerprint hashes over (`assistant_service.py`
lines 195-222): session identity fields, the last-25-event digests, the four
request parameters and the index version token. -/
structure FingerprintInput where
  session_id : Str
  objective : Str
  target_scope : List Str
  policy_id : Str
  current_phase : PhaseName
  memory_mode : MemoryMode
  history_window : Nat
  phase_override : Option PhaseName
  rag_focus : RagFocus
  events : List ActivityEvent
  rag_index_version : Str

/-- One entry of `event_digest_material`: the dict literal
`id/type/ts/payload` in source order. -/
def eventDigestJ (e : ActivityEvent) : JVal :=
  .jobj [((("id").toList), .jstr e.event_id),
         ((("type").toList), .jstr (eventTypeStr e.event_type)),
         ((("ts").toList), .jstr e.timestamp),
         ((("payload").toList), .jobj e.payload)]

/-- The `payload` dict of `_compute_suggest_fingerprint`, keys in source
(insertion) order; `json.dumps(..., sort_keys=True)` sorts them. -/
def fingerprintPayloadJ (x : FingerprintInput) : JVal :=
  .jobj [
    (("v").toList, .jstr (("mvp++-suggest-v1").toList)),
    (("session_id").toList, .jstr x.session_id),
    (("objective").toList, .jstr x.objective),
    (("target_scope").toList, .jarr (x.target_scope.map .jstr)),
    (("policy_id").toList, .jstr x.policy_id),
    (("current_phase").toList, .jstr (phaseStr x.current_phase)),
    (("request").toList, .jobj [
      (("memory_mode").toList, .jstr (memoryModeStr x.memory_mode)),
      (("history_window").toList, .jint x.history_window),
      (("phase_override").toList, phaseOverrideJ x.phase_override),
      (("rag_focus").toList, .jstr (ragFocusStr x.rag_focus))]),
    (("events").toList, .jarr (x.events.map eventDigestJ)),
    (("rag_index_version").toList, .jstr x.rag_index_version)]

/-- The canonical serialization `raw` of `_compute_suggest_fingerprint`. -/
def fingerprintPayloadDump (x : FingerprintInput) : Str :=
  pyJsonDumpsSorted (fingerprintPayloadJ x)

/-- The fingerprint inputs extracted from a session, a request and the index
version token (`last_events = session.events[-25:]`). -/
def fingerprintInput (session : SessionRecord) (request : SuggestRequest)
    (index_version : Str) : FingerprintInput :=
  { session_id := session.session_id, objective := session.objective,
    target_scope := session.target_scope, policy_id := session.policy_id,
    current_phase := session.current_phase, memory_mode := request.memory_mode,
    history_window := request.history_window,
    phase_override := request.phase_override, rag_focus := request.rag_focus,
    events := pyLastSlice 25 session.events, rag_index_version := index_version }

/-- `AssistantService._compute_suggest_fingerprint`: the SHA-256 hex digest
(`sha256`, an external primitive passed as a parameter) of the canonical
serialization. -/
def compute_suggest_fingerprint (sha256 : Str → Str) (session : SessionRecord)
    (request : SuggestRequest) (index_version : Str) : Str :=
  sha256 (fingerprintPayloadDump (fingerprintInput session request index_version))

theorem normJ_jnull : normJ .jnull = .jnull := rfl
theorem normJ_jbool (b : Bool) : normJ (.jbool b) = .jbool b := rfl
theorem normJ_jint (n : Int) : normJ (.jint n) = .jint n := rfl
theorem normJ_jstr (s : Str) : normJ (.jstr s) = .jstr s := rfl
theorem normJ_jarr (l : List JVal) : normJ (.jarr l) = .jarr (normArr l) := rfl
theorem normJ_jobj (l : List (Str × JVal)) :
    normJ (.jobj l) = .jobj (sortPairs (normObj l)) := rfl
theorem normJ_phaseOverride (o : Option PhaseName) :
    normJ (phaseOverrideJ o) = phaseOverrideJ o := by cases o <;> rfl

/-- An event digest with its keys in sorted order, the form `sort_keys=True`
serializes. -/
def eventDigestSortedJ (e : ActivityEvent) : JVal :=
  .jobj [((("id").toList), .jstr e.event_id),
         ((("payload").toList), .jobj e.payload),
         ((("ts").toList), .jstr e.timestamp),
         ((("type").toList), .jstr (eventTypeStr e.event_type))]

theorem normJ_eventDigest (e : ActivityEvent) (h : JCanon (.jobj e.payload)) :
    normJ (eventDigestJ e) = eventDigestSortedJ e := by
  have hp := normJ_canon _ h
  simp only [eventDigestJ, eventDigestSortedJ, normJ_jobj, normObj, normJ_jstr, hp]
  simp +decide [sortPairs, insertPair, strLe]

theorem normArr_eventDigests (l : List ActivityEvent)
    (h : ∀ e ∈ l, JCanon (.jobj e.payload)) :
    normArr (l.map eventDigestJ) = l.map eventDigestSortedJ := by
  induction l with
  | nil => rfl
  | cons e t ih =>
    rw [List.map_cons, normArr, normJ_eventDigest e (h e (by simp)),
      ih (fun f hf => h f (by simp [hf])), List.map_cons]

/-- The fingerprint payload with all object keys in sorted order: the value
whose plain serialization equals the `sort_keys=True` serialization of
`fingerprintPayloadJ`. -/
def fingerprintPayloadSortedJ (x : FingerprintInput) : JVal :=
  .jobj [
    (("current_phase").toList, .jstr (phaseStr x.current_phase)),
    (("events").toList, .jarr (x.events.map eventDigestSortedJ)),
    (("objective").toList, .jstr x.objective),
    (("policy_id").toList, .jstr x.policy_id),
    (("rag_index_version").toList, .jstr x.rag_index_version),
    (("request").toList, .jobj [
      (("history_window").toList, .jint x.history_window),
      (("memory_mode").toList, .jstr (memoryModeStr x.memory_mode)),
      (("phase_override").toList, phaseOverrideJ x.phase_override),
      (("rag_focus").toList, .jstr (ragFocusStr x.rag_focus))]),
    (("session_id").toList, .jstr x.session_id),
    (("target_scope").toList, .jarr (x.target_scope.map .jstr)),
    (("v").toList, .jstr (("mvp++-suggest-v1").toList))]

theorem normJ_fingerprintPayload (x : FingerprintInput)
    (hx : ∀ e ∈ x.events, JCanon (.jobj e.payload)) :
    normJ (fingerprintPayloadJ x) = fingerprintPayloadSortedJ x := by
  have hscope : normArr (x.target_scope.map .jstr) = x.target_scope.map .jstr := by
    refine normArr_id _ ?_
    intro v hv
    simp only [List.mem_map] at hv
    obtain ⟨s, _, rfl⟩ := hv
    rfl
  simp only [fingerprintPayloadJ, fingerprintPayloadSortedJ, normJ_jobj, normObj,
    normJ_jstr, normJ_jarr, normJ_jint, normJ_phaseOverride, hscope,
    normArr_eventDigests x.events hx]
  simp +decide [sortPairs, insertPair, strLe]

theorem eventDigestSortedJ_inj (e1 e2 : ActivityEvent)
    (h : eventDigestSortedJ e1 = eventDigestSortedJ e2) : e1 = e2 := by
  cases e1; cases e2
  simp only [eventDigestSortedJ, JVal.jobj.injEq, List.cons.injEq, Prod.mk.injEq,
    JVal.jstr.injEq, and_true, true_and] at h
  obtain ⟨h1, h2, h3, h4⟩ := h
  simp only [ActivityEvent.mk.injEq]
  exact ⟨h1, eventTypeStr_inj _ _ h4, h3, h2⟩

theorem phaseOverrideJ_inj (a b : Option PhaseName)
    (h : phaseOverrideJ a = phaseOverrideJ b) : a = b := by
  cases a with
  | none =>
    cases b with
    | none => rfl
    | some q => simp [phaseOverrideJ] at h
  | some p =>
    cases b with
    | none => simp [phaseOverrideJ] at h
    | some q =>
      simp only [phaseOverrideJ, JVal.jstr.injEq] at h
      rw [phaseStr_inj _ _ h]

theorem fingerprintPayloadDump_inj (x y : FingerprintInput)
    (hx : ∀ e ∈ x.events, JCanon (.jobj e.payload))
    (hy : ∀ e ∈ y.events, JCanon (.jobj e.payload))
    (h : fingerprintPayloadDump x = fingerprintPayloadDump y) : x = y := by
  have h2 := dumpsJ_inj _ _ h
  rw [normJ_fingerprintPayload x hx, normJ_fingerprintPayload y hy] at h2
  have hscope_inj : ∀ (a b : List Str), a.map JVal.jstr = b.map JVal.jstr → a = b := by
    intro a b hab
    exact List.map_injective_iff.mpr (fun s t hst => by injection hst) hab
  have hev_inj : ∀ (a b : List ActivityEvent),
      a.map eventDigestSortedJ = b.map eventDigestSortedJ → a = b := by
    intro a b hab
    exact List.map_injective_iff.mpr eventDigestSortedJ_inj hab
  cases x; cases y
  simp only [fingerprintPayloadSortedJ, JVal.jobj.injEq, List.cons.injEq,
    Prod.mk.injEq, JVal.jstr.injEq, JVal.jarr.injEq, JVal.jint.injEq,
    and_true, true_and] at h2
  obtain ⟨hcp, hev, hobj, hpol, hver, ⟨hhw, hmm, hpo, hrf⟩, hsid, hscope⟩ := h2
  simp only [FingerprintInput.mk.injEq]
  exact ⟨hsid, hobj, hscope_inj _ _ hscope, hpol, phaseStr_inj _ _ hcp,
    memoryModeStr_inj _ _ hmm, by omega, phaseOverrideJ_inj _ _ hpo,
    ragFocusStr_inj _ _ hrf, hev_inj _ _ hev, hver⟩

/-! ## Auxiliary lemmas for the claim theorems -/

theorem pyIn_iff (needle hay : Str) : pyIn needle hay = true ↔ needle <:+: hay := by
  simp [pyIn]

theorem infix_map (f : Char → Char) {a b : Str} (h : a <:+: b) :
    a.map f <:+: b.map f := by
  obtain ⟨s, t, rfl⟩ := h
  exact ⟨s.map f, t.map f, by simp⟩

theorem mem_joinSep_sub (sep : Str) (parts : List Str) (p : Str)
    (hp : p ∈ parts) : p <:+: joinSep sep parts := by
  induction parts with
  | nil => cases hp
  | cons q rest ih =>
    rcases List.mem_cons.mp hp with hq | hmem
    · subst hq
      cases rest with
      | nil => exact List.infix_refl p
      | cons r rest2 =>
        refine ⟨[], sep ++ joinSep sep (r :: rest2), ?_⟩
        show [] ++ p ++ (sep ++ joinSep sep (r :: rest2)) =
          p ++ sep ++ joinSep sep (r :: rest2)
        simp [List.append_assoc]
    · cases rest with
      | nil => cases hmem
      | cons r rest2 =>
        obtain ⟨s, t, hst⟩ := ih hmem
        refine ⟨q ++ sep ++ s, t, ?_⟩
        show q ++ sep ++ s ++ p ++ t = q ++ sep ++ joinSep sep (r :: rest2)
        rw [← hst]
        simp [List.append_assoc]

/-- A sample session used to instantiate claim witnesses on concrete inputs. -/
def sampleSession : SessionRecord :=
  { session_id := ("abc").toList, tenant_id := ("t").toList,
    user_id := ("u").toList, agent_id := ("a").toList,
    objective := ("obj").toList, target_scope := [("10.10.10.25").toList],
    policy_id := ("lab-default").toList, created_at := [], updated_at := [],
    current_phase := .recon, events := [], notes := [],
    last_reasoning := none, cached_suggest := none }

/-- A sample command event. -/
def sampleEvent (i : Nat) : ActivityEvent :=
  { event_id := natRepr i, event_type := .command, timestamp := [], payload := [] }

/-- A sample mutator growing the event list to three events. -/
def growMutator : SessionRecord → SessionRecord :=
  fun s => { s with events := [sampleEvent 1, sampleEvent 2, sampleEvent 3] }

/-! ## C1 — event cap in `update_session` -/

/-- C1: for every session and every mutator (and a positive configured
`max_events`, the store default being 600), the session persisted by
`update_session` has at most `max_events` events, and when the mutator
leaves more than `max_events` events the retained list is exactly the last
`max_events` events in their original relative order (the oldest are
evicted). -/
theorem update_session_event_cap (max_events : Nat) (hpos : 0 < max_events)
    (now : Str) (mutator : SessionRecord → SessionRecord)
    (session : SessionRecord) :
    (update_session max_events now mutator session).events.length ≤ max_events ∧
    ((mutator session).events.length > max_events →
      (update_session max_events now mutator session).events =
        (mutator session).events.drop
          ((mutator session).events.length - max_events)) := by
  simp only [update_session, capEvents, pySliceNeg]
  constructor
  · split
    · rw [if_neg (by omega : ¬ max_events = 0), List.length_drop]
      omega
    · rename_i h
      omega
  · intro h
    rw [if_pos h, if_neg (by omega : ¬ max_events = 0)]

/-- C1 witness: a mutator that grows a fresh session to three events under a
cap of 2 satisfies both conclusions. -/
theorem update_session_event_cap_witness :
    0 < 2 ∧
    ((update_session 2 [] growMutator sampleSession).events.length ≤ 2 ∧
      ((growMutator sampleSession).events.length > 2 →
        (update_session 2 [] growMutator sampleSession).events =
          (growMutator sampleSession).events.drop
            ((growMutator sampleSession).events.length - 2))) :=
  ⟨by decide, update_session_event_cap 2 (by decide) [] growMutator sampleSession⟩

/-! ## C3 — sanitizer shape and the `urlparse` raise -/

/-- A guard with no blocklist and no allowed tools, for the C3 scenarios. -/
def c3Guard : PolicyGuard := { allowed_tools := [], blocklist_patterns := [] }

/-- A command-free sample action. -/
def commandFreeAction : ActionItem :=
  { title := [], rationale := ("r").toList, done_criteria := [], command := none }

/-- C3 counterexample: the claim says `sanitize_actions` never raises for
any target scope, but the scope entry `"x://["` contains `"://"`, so
`_normalize_target` calls `urlparse`, whose `urlsplit` raises `ValueError`
(`Invalid IPv6 URL`: the netloc `[` has an unmatched bracket) — before any
action is processed. The raise comes from the concretely modelled
bracket-mismatch guard, on a branch taken before the hostname collaborator
is consulted, so the collaborator below is instantiated with a function
that never errors: the raise holds for every collaborator, i.e. on every
CPython version. -/
theorem sanitize_urlparse_raises_counterexample :
    normalize_targetE (fun _ => .ok []) (("x://[").toList) =
      .error .valueError ∧
    sanitize_actionsE c3Guard (fun _ => .ok []) [commandFreeAction]
      [("x://[").toList] = .error .valueError := by
  constructor <;> rfl

/-- C3 (amended): `sanitize_actions` can raise, but only from the scope
normalization: whenever every target-scope entry normalizes without raising
(hypothesis: the left-to-right normalization of the scope succeeds, with
results `ns`), the call returns `ok` with exactly one action per input
action in input order, and every action whose command is absent is returned
unchanged. -/
theorem sanitize_actions_ok_shape (guard : PolicyGuard)
    (uh : Str → Except PyError Str) (actions : List ActionItem)
    (target_scope : List Str) (ns : List Str)
    (hok : mapE (normalize_targetE uh) target_scope = .ok ns) :
    ∃ res, sanitize_actionsE guard uh actions target_scope = .ok res ∧
      res.length = actions.length ∧
      ∀ (i : Nat) (a : ActionItem), actions[i]? = some a → a.command = none →
        res[i]? = some a := by
  refine ⟨actions.map (sanitizeOne guard (totalize uh)
    ((ns.filter (fun t => t ≠ [])).dedup)), ?_, ?_, ?_⟩
  · simp [sanitize_actionsE, normalizedScopeE, hok, Except.map]
  · simp
  · intro i a hi hcmd
    have hone : sanitizeOne guard (totalize uh)
        ((ns.filter (fun t => t ≠ [])).dedup) a = a := by
      cases a with
      | mk title rationale done_criteria command =>
        simp only at hcmd
        subst hcmd
        simp [sanitizeOne]
    simpa [List.getElem?_map, hi] using hone

/-- C3 witness: with a collaborator that never raises, a concrete plain
scope entry normalizes successfully and a command-free action passes
through unchanged on a one-action input. -/
theorem sanitize_actions_ok_shape_witness :
    ∃ res, sanitize_actionsE c3Guard (fun _ => .ok [])
        [commandFreeAction] [("10.10.10.30").toList] = .ok res ∧
      res.length = ([commandFreeAction] : List ActionItem).length ∧
      ∀ (i : Nat) (a : ActionItem),
        ([commandFreeAction] : List ActionItem)[i]? = some a →
        a.command = none → res[i]? = some a :=
  sanitize_actions_ok_shape c3Guard (fun _ => .ok []) [commandFreeAction]
    [("10.10.10.30").toList] [("10.10.10.30").toList] (by rfl)

/-! ## C9 — corrupt record on direct `get` -/

/-- C9 counterexample: a stored record that fails to parse makes
`get_session` propagate the validation error; the result is not the
not-found value `ok none` the claim describes. -/
theorem get_session_corrupt_counterexample :
    get_session (fun _ => none) [((("abc").toList), ("corrupt").toList)]
      (("abc").toList) = .error .validationError ∧
    get_session (fun _ => none) [((("abc").toList), ("corrupt").toList)]
      (("abc").toList) ≠ .ok none := by
  have h : get_session (fun _ => none)
      [((("abc").toList), ("corrupt").toList)] (("abc").toList) =
      .error .validationError := by rfl
  refine ⟨h, ?_⟩
  rw [h]
  intro hc
  exact Except.noConfusion hc

/-- C9 amended: a direct `get` of an absent record surfaces not-found, but a
present record that fails to parse propagates the parse error — it is not
converted to not-found (only `list_sessions` skips corrupt records). -/
theorem get_session_corrupt_propagates :
    (∀ (parse : Str → Option SessionRecord) files sid,
      validSessionId sid = true → lookupStr files sid = none →
      get_session parse files sid = .ok none) ∧
    (∀ (parse : Str → Option SessionRecord) files sid raw,
      validSessionId sid = true → lookupStr files sid = some raw →
      parse raw = none →
      get_session parse files sid = .error .validationError) := by
  constructor
  · intro parse files sid hvalid hlook
    simp [get_session, hvalid, hlook]
  · intro parse files sid raw hvalid hlook hparse
    simp [get_session, hvalid, hlook, hparse]

/-- C9 witness: both amended behaviours on concrete stores. -/
theorem get_session_corrupt_propagates_witness :
    get_session (fun _ => none) [] (("abc").toList) = .ok none ∧
    get_session (fun _ => none)
      [((("abc").toList), ("x").toList)] (("abc").toList) =
      .error .validationError :=
  ⟨get_session_corrupt_propagates.1 (fun _ => none) [] (("abc").toList)
      (by decide) rfl,
   get_session_corrupt_propagates.2 (fun _ => none) _ (("abc").toList)
      (("x").toList) (by decide) rfl rfl⟩

/-! ## C8 — index rebuild write is not atomic -/

/-- A one-record old index. -/
def c8Old : VectorRecord :=
  { record_id := ("old").toList, text := [], metadata := [], embedding := [1] }

/-- A one-record new index. -/
def c8New : VectorRecord :=
  { record_id := ("new").toList, text := [], metadata := [], embedding := [1] }

/-- C8 counterexample: rebuilding a one-record index over a one-record old
index exposes an observable on-disk state (the truncated, empty file) that is
neither the old nor the new record set — `write_records` opens the index file
in mode `"w"` and writes in place, with no temporary file or atomic rename. -/
theorem write_records_not_atomic_counterexample :
    ∃ s ∈ write_records_observable [c8Old] [c8New],
      s ≠ [c8Old] ∧ s ≠ [c8New] := by
  have hobs : write_records_observable [c8Old] [c8New] =
      [[c8Old], [], [c8New]] := rfl
  refine ⟨[], ?_, by simp, by simp⟩
  rw [hobs]
  simp

/-- C8 amended: the rebuild replaces the store wholesale by rewriting the
index file in place; the final observable state equals exactly the new record
set, and every observable state is either the old record set or a prefix of
the new one (a reader never sees a mixture of old and new records, but it can
see a partial new index while the write is in progress or after a failure).
No temporary-file atomic publish is performed. -/
theorem write_records_in_place_spec (old new_records : List VectorRecord) :
    (write_records_observable old new_records).getLast? = some new_records ∧
    ∀ s ∈ write_records_observable old new_records,
      s = old ∨ s <+: new_records := by
  constructor
  · unfold write_records_observable
    rw [List.range_succ, List.map_append]
    rw [show old :: (List.map (fun i => new_records.take i)
        (List.range new_records.length) ++
        List.map (fun i => new_records.take i) [new_records.length]) =
      (old :: List.map (fun i => new_records.take i)
        (List.range new_records.length)) ++ [new_records.take new_records.length]
      from rfl]
    rw [List.getLast?_concat, List.take_length]
  · intro s hs
    unfold write_records_observable at hs
    rcases List.mem_cons.mp hs with h | h
    · left; exact h
    · right
      simp only [List.mem_map, List.mem_range] at h
      obtain ⟨i, _, rfl⟩ := h
      exact List.take_prefix i new_records

/-- C8 witness: the amended behaviour at the concrete one-record rebuild. -/
theorem write_records_in_place_spec_witness :
    (write_records_observable [c8Old] [c8New]).getLast? = some [c8New] ∧
    (([] : List VectorRecord) = [c8Old] ∨ ([] : List VectorRecord) <+: [c8New]) :=
  ⟨(write_records_in_place_spec [c8Old] [c8New]).1,
   (write_records_in_place_spec [c8Old] [c8New]).2 []
     (by rw [show write_records_observable [c8Old] [c8New] =
         [[c8Old], [], [c8New]] from rfl]; simp)⟩

/-! ## C10 — zero-norm query yields no results -/

/-- C10: against a non-empty index, a query embedding whose (numeric-library)
norm is zero makes `JsonVectorStore.search` return the empty list, and hence
`RagRetriever.query` returns the empty result list as well. -/
theorem search_zero_norm_empty (norm : List ℚ → ℚ) (embed : Str → List ℚ)
    (records : List VectorRecord) (q : List ℚ) (text : Str)
    (_hrec : records ≠ []) (hq : norm q = 0) (hembed : embed (pyStrip text) = q) :
    (∀ top_k, search norm records q top_k = []) ∧
    (∀ top_k, retriever_query embed norm records text top_k = []) := by
  have hsearch : ∀ k, search norm records q k = [] := by
    intro k
    simp [search, hq]
  refine ⟨hsearch, ?_⟩
  intro top_k
  by_cases hstrip : pyStrip text = []
  · simp [retriever_query, hstrip]
  · have hb : apply_keyword_boost (pyStrip text) ([] : List (VectorRecord × ℚ)) = [] := by
      simp [apply_keyword_boost]
    have hf : apply_focus_filter (pyStrip text) ([] : List (VectorRecord × ℚ)) = [] := by
      simp [apply_focus_filter]
    simp [retriever_query, hstrip, hembed, hsearch, hb, hf]

/-- C10 witness: a concrete one-record index and the all-zeros norm. -/
theorem search_zero_norm_empty_witness :
    (∀ top_k, search (fun _ => 0) [c8Old] [0] top_k = []) ∧
    (∀ top_k, retriever_query (fun _ => [0]) (fun _ => 0) [c8Old]
      (("query").toList) top_k = []) :=
  search_zero_norm_empty (fun _ => 0) (fun _ => [0]) [c8Old] [0]
    (("query").toList) (by simp) rfl rfl

/-! ## C7 — suggestion cache hit, and TypeError on the pipeline path -/

/-- The cached suggestion entry used in the C7 evaluation. -/
def c7Cached : CachedSuggest := { fingerprint := ("fp").toList, payload := .jobj [] }

/-- A session carrying the cached entry. -/
def c7Session : SessionRecord := { sampleSession with cached_suggest := some c7Cached }

/-- The request used in the C7 evaluation. -/
def c7Request : SuggestRequest :=
  { user_message := none, memory_mode := .window, history_window := 12,
    phase_override := none, persist_phase_override := false, rag_focus := .auto }

/-- A pipeline response value. -/
def c7Response : SuggestResponse :=
  { session_id := [], phase := .recon, phase_confidence := 0,
    missing_artifacts := [], reasoning := [], actions := [],
    retrieved_context := [], episode_summary := [] }

/-- C7 evaluation at the failing input: (a) a cache hit whose stored payload
deserializes is returned verbatim with the workflow not invoked; (b) with the
same matching fingerprint but a payload failing validation, the call is
treated as a miss and reaches the workflow invocation — which raises
`TypeError`, because `AssistantService.suggest` passes the keyword arguments
`phase_override` and `rag_focus` that `AssistantWorkflow.run` does not
declare; (c) that keyword binding is what fails. -/
theorem suggest_cache_and_pipeline_type_error :
    suggest 600 [] [] (fun _ _ => ("fp").toList) (fun _ => some c7Response)
      (fun _ _ => c7Response) c7Session c7Request = .ok (c7Response, false) ∧
    suggest 600 [] [] (fun _ _ => ("fp").toList) (fun _ => none)
      (fun _ _ => c7Response) c7Session c7Request = .error .typeError ∧
    workflowCallAccepted = false :=
  ⟨rfl, rfl, rfl⟩

/-! ## C4 — note-based report override -/

/-- C4: whenever some note-typed event among the last 10 events has a message
whose lowercase text contains a report keyword, `detect_phase` returns
`(report, 0.9)` regardless of all other event content — the note signal
precedes the pattern-count path. -/
theorem detect_phase_report_note (events : List ActivityEvent)
    (current : PhaseName) (e : ActivityEvent) (kw : Str)
    (he : e ∈ pyLastSlice 10 events) (ht : e.event_type = .note)
    (hkw : kw ∈ REPORT_KEYWORDS)
    (hin : pyIn kw (pyLower (pyGetStr e.payload (("message").toList))) = true) :
    detect_phase events current = (.report, 9/10) := by
  have hne : events ≠ [] := by
    intro h
    subst h
    simp [pyLastSlice] at he
  have hmsg : pyGetStr e.payload (("message").toList) ∈
      (pyLastSlice 10 events).filterMap (fun ev =>
        if ev.event_type = .note
        then some (pyGetStr ev.payload (("message").toList)) else none) :=
    List.mem_filterMap.mpr ⟨e, he, by simp [ht]⟩
  have hinf : kw <:+: noteText events := by
    have h1 := (pyIn_iff _ _).mp hin
    have h2 : pyLower (pyGetStr e.payload (("message").toList)) <:+:
        noteText events := by
      unfold noteText
      exact infix_map Char.toLower (mem_joinSep_sub _ _ _ hmsg)
    exact h1.trans h2
  have hkwne : kw ≠ [] := by
    have hall : ∀ k ∈ REPORT_KEYWORDS, k ≠ ([] : Str) := by decide
    exact hall kw hkw
  have hnt : noteText events ≠ [] := by
    intro h
    rw [h] at hinf
    obtain ⟨s, t, hst⟩ := hinf
    simp [List.append_eq_nil] at hst
    exact hkwne hst.2.1
  have hany : REPORT_KEYWORDS.any (fun k => pyIn k (noteText events)) = true :=
    List.any_eq_true.mpr ⟨kw, hkw, (pyIn_iff _ _).mpr hinf⟩
  simp only [detect_phase]
  rw [if_neg (by simpa using hne), if_pos ⟨hnt, hany⟩]

/-- The note event of the C4 witness and C5 counterexample inputs. -/
def reportNote : ActivityEvent :=
  { event_id := [], event_type := .note, timestamp := [],
    payload := [((("message").toList), .jstr (("need report template").toList))] }

/-- C4 witness: a single "need report template" note yields `(report, 0.9)`. -/
theorem detect_phase_report_note_witness :
    reportNote ∈ pyLastSlice 10 [reportNote] ∧
    detect_phase [reportNote] .recon = (.report, 9/10) :=
  ⟨by simp [pyLastSlice],
   detect_phase_report_note [reportNote] .recon reportNote (("report").toList)
     (by simp [pyLastSlice]) rfl (by decide) (by decide)⟩

/-! ## C5 — the pattern-count path of `detect_phase` -/

theorem mostCommon1_spec (t : List (PhaseName × Nat)) :
    ∀ h : PhaseName × Nat, ∃ best pre post,
      mostCommon1 (h :: t) = some best ∧
      h :: t = pre ++ best :: post ∧
      (∀ it ∈ pre, it.2 < best.2) ∧
      (∀ it ∈ h :: t, it.2 ≤ best.2) := by
  induction t with
  | nil =>
    intro h
    exact ⟨h, [], [], rfl, rfl, by simp, by simp⟩
  | cons a t2 ih =>
    intro h
    have hstep : mostCommon1 (h :: a :: t2) =
        mostCommon1 ((if a.2 > h.2 then a else h) :: t2) := by
      simp [mostCommon1, List.foldl_cons]
    by_cases hc : a.2 > h.2
    · obtain ⟨best, pre, post, hmc, hsplit, hlt, hle⟩ := ih a
      rw [if_pos hc] at hstep
      refine ⟨best, h :: pre, post, hstep.trans hmc, ?_, ?_, ?_⟩
      · rw [List.cons_append, ← hsplit]
      · intro it hit
        rcases List.mem_cons.mp hit with rfl | hpre
        · exact lt_of_lt_of_le hc (hle a (by simp))
        · exact hlt it hpre
      · intro it hit
        rcases List.mem_cons.mp hit with rfl | h2
        · exact le_of_lt (lt_of_lt_of_le hc (hle a (by simp)))
        · exact hle it h2
    · obtain ⟨best, pre, post, hmc, hsplit, hlt, hle⟩ := ih h
      rw [if_neg hc] at hstep
      have hmc2 := hstep.trans hmc
      cases pre with
      | nil =>
        simp only [List.nil_append] at hsplit
        injection hsplit with hb hp
        refine ⟨best, [], a :: t2, hmc2, by simp [← hb], by simp, ?_⟩
        intro it hit
        rcases List.mem_cons.mp hit with heq | h2
        · subst heq; rw [← hb]
        · rcases List.mem_cons.mp h2 with heq | h3
          · subst heq; rw [← hb]; omega
          · exact hle it (by simp [h3])
      | cons p pre2 =>
        rw [List.cons_append] at hsplit
        injection hsplit with hhp ht2
        refine ⟨best, h :: a :: pre2, post, hmc2, ?_, ?_, ?_⟩
        · rw [List.cons_append, List.cons_append, ← ht2]
        · intro it hit
          rcases List.mem_cons.mp hit with heq | h2
          · subst heq
            have hhb := hlt p (by simp)
            rw [← hhp] at hhb
            exact hhb
          · rcases List.mem_cons.mp h2 with heq | h3
            · subst heq
              have hh := hlt p (by simp)
              rw [← hhp] at hh
              omega
            · exact hlt it (by simp [h3])
        · intro it hit
          rcases List.mem_cons.mp hit with heq | h2
          · subst heq
            exact hle it (by simp)
          · rcases List.mem_cons.mp h2 with heq | h3
            · subst heq
              have hh := hle h (by simp)
              omega
            · exact hle it (List.mem_cons_of_mem _ h3)

theorem filterMap_split {α β : Type _} (f : α → Option β) :
    ∀ (l : List α) (pre post : List β) (b : β), l.filterMap f = pre ++ b :: post →
    ∃ l1 a l2, l = l1 ++ a :: l2 ∧ f a = some b ∧ l1.filterMap f = pre := by
  intro l
  induction l with
  | nil =>
    intro pre post b h
    rw [List.filterMap_nil] at h
    exact absurd h.symm (List.append_ne_nil_of_right_ne_nil _ (by simp))
  | cons x t ih =>
    intro pre post b h
    rw [List.filterMap_cons] at h
    cases hfx : f x with
    | none =>
      rw [hfx] at h
      obtain ⟨l1, a, l2, rfl, hfa, hpre⟩ := ih pre post b h
      exact ⟨x :: l1, a, l2, rfl, hfa, by simp [List.filterMap_cons, hfx, hpre]⟩
    | some y =>
      rw [hfx] at h
      cases pre with
      | nil =>
        simp only [List.nil_append] at h
        injection h with hy hrest
        exact ⟨[], x, t, rfl, by rw [hfx, hy], by simp⟩
      | cons p pre2 =>
        rw [List.cons_append] at h
        injection h with hy hrest
        obtain ⟨l1, a, l2, rfl, hfa, hpre⟩ := ih pre2 post b hrest
        exact ⟨x :: l1, a, l2, rfl, hfa, by simp [List.filterMap_cons, hfx, hpre, hy]⟩

theorem find?_first {α : Type _} (p : α → Bool) (l1 : List α) (a : α)
    (l2 : List α) (h1 : ∀ x ∈ l1, p x = false) (ha : p a = true) :
    (l1 ++ a :: l2).find? p = some a := by
  induction l1 with
  | nil =>
    rw [List.nil_append]
    exact List.find?_cons_of_pos _ ha
  | cons x t ih =>
    rw [List.cons_append, List.find?_cons_of_neg _ (by simp [h1 x (by simp)])]
    exact ih (fun y hy => h1 y (by simp [hy]))

theorem phases_complete (ph : PhaseName) : ph ∈ PHASES := by
  cases ph <;> simp [PHASES]

/-- C5 (amended): provided the note-based override of step 2 does not fire
(the joined lowercase note text of the last 10 events is empty or contains
neither a report nor a recon keyword — the override otherwise takes
precedence, see the C5 counterexample): with no events the classifier
returns `(current_phase, 0.4)`; with events but no pattern hits over the
last 20 events it returns `(current_phase, 0.45)`; otherwise it returns the
stage with the most hits — ties broken by the fixed iteration order of the
stage table, i.e. the winner is the first stage in `PHASE_PATTERNS` order
attaining the winning count — with confidence
`min(0.95, 0.5 + (hits_for_winner / total_hits) * 0.5)`. -/
theorem detect_phase_pattern_path (events : List ActivityEvent)
    (current : PhaseName)
    (hov1 : ¬(noteText events ≠ [] ∧
      REPORT_KEYWORDS.any (fun kw => pyIn kw (noteText events)) = true))
    (hov2 : ¬(noteText events ≠ [] ∧
      RECON_KEYWORDS.any (fun kw => pyIn kw (noteText events)) = true)) :
    (events = [] → detect_phase events current = (current, 2/5)) ∧
    (events ≠ [] → counterItems (recentText events) = [] →
      detect_phase events current = (current, 9/20)) ∧
    (events ≠ [] → counterItems (recentText events) ≠ [] →
      ∃ w : PhaseName,
        detect_phase events current = (w, min (19/20)
          (1/2 + ((phaseHits (recentText events) w : ℚ) /
            ((max (((counterItems (recentText events)).map (fun it => it.2)).sum) 1 : ℕ) : ℚ)) * (1/2))) ∧
        (∀ ph : PhaseName, phaseHits (recentText events) ph ≤
          phaseHits (recentText events) w) ∧
        PHASES.find? (fun ph => phaseHits (recentText events) ph ==
          phaseHits (recentText events) w) = some w) := by
  refine ⟨?_, ?_, ?_⟩
  · intro h
    subst h
    rfl
  · intro hne hci
    simp only [detect_phase]
    rw [if_neg (by simpa using hne), if_neg hov1, if_neg hov2]
    rw [show mostCommon1 (counterItems (recentText events)) = none from by rw [hci]; rfl]
  · intro hne hci
    obtain ⟨h0, t0, hct⟩ : ∃ h0 t0,
        counterItems (recentText events) = h0 :: t0 := by
      cases hc : counterItems (recentText events) with
      | nil => exact absurd hc hci
      | cons a b => exact ⟨a, b, rfl⟩
    obtain ⟨best, pre, post, hmc, hsplit, hlt, hle⟩ := mostCommon1_spec t0 h0
    have hmc2 : mostCommon1 (counterItems (recentText events)) = some best := by
      rw [hct]
      exact hmc
    have hbestmem : best ∈ counterItems (recentText events) := by
      rw [hct, hsplit]
      exact List.mem_append_right _ (List.mem_cons_self _ _)
    have hbest : phaseHits (recentText events) best.1 = best.2 ∧ 0 < best.2 := by
      obtain ⟨q, hq, hqe⟩ := List.mem_filterMap.mp hbestmem
      by_cases hqp : phaseHits (recentText events) q > 0
      · rw [if_pos hqp] at hqe
        injection hqe with hqe2
        rw [← hqe2]
        exact ⟨rfl, hqp⟩
      · rw [if_neg hqp] at hqe
        exact absurd hqe (by simp)
    refine ⟨best.1, ?_, ?_, ?_⟩
    · simp only [detect_phase]
      rw [if_neg (by simpa using hne), if_neg hov1, if_neg hov2, hmc2]
    · intro ph
      by_cases hp : 0 < phaseHits (recentText events) ph
      · have hmem : (ph, phaseHits (recentText events) ph) ∈
            counterItems (recentText events) :=
          List.mem_filterMap.mpr ⟨ph, phases_complete ph, by rw [if_pos hp]⟩
        rw [hct] at hmem
        have h2 : phaseHits (recentText events) ph ≤ best.2 := hle _ hmem
        rw [hbest.1]
        exact h2
      · have h0p : phaseHits (recentText events) ph = 0 := by omega
        rw [h0p]
        exact Nat.zero_le _
    · have hfm : counterItems (recentText events) = pre ++ best :: post := by
        rw [hct]
        exact hsplit
      obtain ⟨l1, a, l2, hphases, hfa, hpre⟩ :=
        filterMap_split _ PHASES pre post best (by exact hfm)
      have ha : a = best.1 := by
        by_cases hap : phaseHits (recentText events) a > 0
        · rw [if_pos hap] at hfa
          injection hfa with hfa2
          rw [← hfa2]
        · rw [if_neg hap] at hfa
          exact absurd hfa (by simp)
      have hl1 : ∀ x ∈ l1, (phaseHits (recentText events) x ==
          phaseHits (recentText events) best.1) = false := by
        intro x hx
        rw [beq_eq_false_iff_ne]
        by_cases hxp : 0 < phaseHits (recentText events) x
        · have hmem : (x, phaseHits (recentText events) x) ∈ pre := by
            rw [← hpre]
            exact List.mem_filterMap.mpr ⟨x, hx, by rw [if_pos hxp]⟩
          have h2 : phaseHits (recentText events) x < best.2 := hlt _ hmem
          rw [hbest.1]
          omega
        · rw [hbest.1]
          omega
      rw [hphases, find?_first _ l1 a l2 hl1 (by rw [ha]; simp), ha]

/-- A note whose message is only the keyword "template": it fires the note
override but produces no pattern hits. -/
def templateNote : ActivityEvent :=
  { event_id := [], event_type := .note, timestamp := [],
    payload := [((("message").toList), .jstr (("template").toList))] }

/-- C5 counterexample: on a single "template" note the pattern pass over the
last 20 events yields no hits, yet `detect_phase` returns `(report, 0.9)`
via the note override, not `(current_phase, 0.45)` as the claim states. -/
theorem detect_phase_note_priority_counterexample :
    counterItems (recentText [templateNote]) = [] ∧
    detect_phase [templateNote] .recon = (.report, 9/10) ∧
    detect_phase [templateNote] .recon ≠ (.recon, 9/20) := by
  have heq : detect_phase [templateNote] .recon = (.report, 9/10) := rfl
  refine ⟨by decide, heq, ?_⟩
  rw [heq]
  intro h
  exact PhaseName.noConfusion (congrArg Prod.fst h)

/-- A command event running nmap against the sample scope. -/
def nmapEvent : ActivityEvent :=
  { event_id := [], event_type := .command, timestamp := [],
    payload := [((("command").toList), .jstr (("nmap -sV 10.10.10.25").toList))] }

/-- C5 witness: on a single nmap command (no note override), the pattern
path picks a winner with the most hits, first in table order, with the
stated confidence formula. -/
theorem detect_phase_pattern_path_witness :
    ∃ w : PhaseName,
      detect_phase [nmapEvent] .report = (w, min (19/20)
        (1/2 + ((phaseHits (recentText [nmapEvent]) w : ℚ) /
          ((max (((counterItems (recentText [nmapEvent])).map (fun it => it.2)).sum) 1 : ℕ) : ℚ)) * (1/2))) ∧
      (∀ ph : PhaseName, phaseHits (recentText [nmapEvent]) ph ≤
        phaseHits (recentText [nmapEvent]) w) ∧
      PHASES.find? (fun ph => phaseHits (recentText [nmapEvent]) ph ==
        phaseHits (recentText [nmapEvent]) w) = some w :=
  (detect_phase_pattern_path [nmapEvent] .report (by decide) (by decide)).2.2
    (by simp) (by decide)

/-! ## C6 — fingerprint determinism and field sensitivity -/

/-- C6: the suggestion fingerprint is a function of exactly the fields the
claim lists (captured by `fingerprintInput`): equal fields give identical
fingerprints for any hash, and any change to those fields changes the
canonical serialization, hence the fingerprint, except in the case of a
SHA-256 collision. Event payloads are taken in their canonical (key-sorted,
distinct-keys) representation — the representation of a parsed Python dict. -/
theorem fingerprint_deterministic_and_sensitive (sha256 : Str → Str)
    (s1 s2 : SessionRecord) (r1 r2 : SuggestRequest) (v1 v2 : Str)
    (h1 : ∀ e ∈ pyLastSlice 25 s1.events, JCanon (.jobj e.payload))
    (h2 : ∀ e ∈ pyLastSlice 25 s2.events, JCanon (.jobj e.payload)) :
    (fingerprintInput s1 r1 v1 = fingerprintInput s2 r2 v2 →
      compute_suggest_fingerprint sha256 s1 r1 v1 =
        compute_suggest_fingerprint sha256 s2 r2 v2) ∧
    (fingerprintInput s1 r1 v1 ≠ fingerprintInput s2 r2 v2 →
      fingerprintPayloadDump (fingerprintInput s1 r1 v1) ≠
        fingerprintPayloadDump (fingerprintInput s2 r2 v2) ∧
      (compute_suggest_fingerprint sha256 s1 r1 v1 =
          compute_suggest_fingerprint sha256 s2 r2 v2 →
        ∃ a b, a ≠ b ∧ sha256 a = sha256 b)) := by
  constructor
  · intro h
    unfold compute_suggest_fingerprint
    rw [h]
  · intro hne
    have hdump : fingerprintPayloadDump (fingerprintInput s1 r1 v1) ≠
        fingerprintPayloadDump (fingerprintInput s2 r2 v2) := by
      intro h
      exact hne (fingerprintPayloadDump_inj _ _ h1 h2 h)
    exact ⟨hdump, fun hfp => ⟨_, _, hdump, hfp⟩⟩

/-- A hash stub used in the C6 witness. -/
def constHash : Str → Str := fun _ => []

/-- A session differing from `sampleSession` only in its objective. -/
def c6SessionB : SessionRecord := { sampleSession with objective := ("obj2").toList }

/-- C6 witness: changing only the objective changes the canonical
serialization, so equal fingerprints would exhibit a hash collision. -/
theorem fingerprint_deterministic_and_sensitive_witness :
    fingerprintPayloadDump (fingerprintInput sampleSession c7Request (("v1").toList)) ≠
      fingerprintPayloadDump (fingerprintInput c6SessionB c7Request (("v1").toList)) ∧
    (compute_suggest_fingerprint constHash sampleSession c7Request (("v1").toList) =
        compute_suggest_fingerprint constHash c6SessionB c7Request (("v1").toList) →
      ∃ a b, a ≠ b ∧ constHash a = constHash b) :=
  (fingerprint_deterministic_and_sensitive constHash sampleSession c6SessionB
    c7Request c7Request (("v1").toList) (("v1").toList)
    (by intro e he; simp [sampleSession, pyLastSlice] at he)
    (by intro e he; simp [c6SessionB, sampleSession, pyLastSlice] at he)).2
    (by intro heq; exact absurd (congrArg FingerprintInput.objective heq) (by decide))

/-! ## C2 — out-of-scope targets null the command -/

/-- C2 (amended): for every action whose command passes the blocklist and
tool-allowlist checks, and every `target_scope` whose *normalized* form is
non-empty (an entry normalizing to the empty string is discarded, so a
scope of blank entries disables the check — see the counterexample): if the
command yields an out-of-scope candidate (an IPv4 literal or hostname-like
token whose normalized form is absent from the normalized scope; the scope
placeholder suppresses the check), the sanitized action at the same position
has a null command and its rationale contains every out-of-scope target and
the phrase "out of session scope". -/
theorem sanitize_out_of_scope (guard : PolicyGuard) (urlHostname : Str → Str)
    (actions : List ActionItem) (target_scope : List Str)
    (i : Nat) (action : ActionItem) (command : Str)
    (hi : actions[i]? = some action)
    (hcmd : action.command = some command)
    (hblock : ∀ p ∈ guard.blocklist_patterns, pyIn p (pyLower command) = false)
    (htool : extract_tool command ∈ guard.allowed_tools)
    (hscope : normalizedScope urlHostname target_scope ≠ [])
    (hoos : find_out_of_scope_targets urlHostname command
      (normalizedScope urlHostname target_scope) ≠ []) :
    ∃ res : ActionItem,
      (sanitize_actions guard urlHostname actions target_scope)[i]? = some res ∧
      res.command = none ∧
      pyIn (("out of session scope").toList) res.rationale = true ∧
      ∀ t ∈ find_out_of_scope_targets urlHostname command
        (normalizedScope urlHostname target_scope),
        pyIn t res.rationale = true := by
  have hb : guard.blocklist_patterns.any (fun p => pyIn p (pyLower command)) = false :=
    List.any_eq_false.mpr (fun p hp => by simp [hblock p hp])
  have ht : ¬(extract_tool command ≠ [] ∧
      extract_tool command ∉ guard.allowed_tools) := fun h => h.2 htool
  have hone : sanitizeOne guard urlHostname
      (normalizedScope urlHostname target_scope) action =
      { title := action.title,
        rationale := action.rationale ++ (" (").toList ++
          (("target(s) ").toList ++
            joinSep ((", ").toList) (pySorted (find_out_of_scope_targets
              urlHostname command (normalizedScope urlHostname target_scope))) ++
            (" are out of session scope").toList) ++ [')'],
        command := none, done_criteria := action.done_criteria } := by
    simp [sanitizeOne, hcmd, hb, ht, hscope, hoos, joinSep]
  refine ⟨sanitizeOne guard urlHostname
    (normalizedScope urlHostname target_scope) action, ?_, ?_, ?_, ?_⟩
  · show (List.map (sanitizeOne guard urlHostname
        (normalizedScope urlHostname target_scope)) actions)[i]? = _
    rw [List.getElem?_map, hi]
    rfl
  · rw [hone]
  · rw [hone]
    apply (pyIn_iff _ _).mpr
    refine ⟨action.rationale ++ (" (").toList ++ ("target(s) ").toList ++
      joinSep ((", ").toList) (pySorted (find_out_of_scope_targets
        urlHostname command (normalizedScope urlHostname target_scope))) ++
      (" are ").toList, [')'], ?_⟩
    rw [show (" are out of session scope").toList =
      (" are ").toList ++ ("out of session scope").toList from rfl]
    simp [List.append_assoc]
  · intro t hmem
    rw [hone]
    apply (pyIn_iff _ _).mpr
    have h1 : t <:+: joinSep ((", ").toList) (pySorted (find_out_of_scope_targets
        urlHostname command (normalizedScope urlHostname target_scope))) := by
      apply mem_joinSep_sub
      simpa [pySorted, List.mem_mergeSort] using hmem
    have h2 : joinSep ((", ").toList) (pySorted (find_out_of_scope_targets
        urlHostname command (normalizedScope urlHostname target_scope))) <:+:
        action.rationale ++ (" (").toList ++
          (("target(s) ").toList ++
            joinSep ((", ").toList) (pySorted (find_out_of_scope_targets
              urlHostname command (normalizedScope urlHostname target_scope))) ++
            (" are out of session scope").toList) ++ [')'] := by
      refine ⟨action.rationale ++ (" (").toList ++ ("target(s) ").toList,
        (" are out of session scope").toList ++ [')'], ?_⟩
      simp [List.append_assoc]
    exact h1.trans h2

/-- The policy guard of the C2 evaluations: nmap allowed, empty blocklist. -/
def c2Guard : PolicyGuard :=
  { allowed_tools := [("nmap").toList], blocklist_patterns := [] }

/-- The out-of-scope scan action from the claim scenario. -/
def scanAction : ActionItem :=
  { title := ("Scan target").toList, rationale := ("test").toList,
    done_criteria := ("done").toList,
    command := some (("nmap -sV -Pn 10.10.10.99").toList) }

/-- C2 counterexample: a non-empty `target_scope` consisting of one blank
entry normalizes to the empty set, so the scope check is skipped and the
out-of-scope command survives unchanged — the claim, quantified over every
non-empty `target_scope`, predicts a nulled command here. All of the claim's
other antecedents hold: the command is not blocklisted, its tool is allowed,
it carries no scope placeholder, and it contains an IPv4 candidate whose
normalized form is absent from the (empty) normalized scope. -/
theorem sanitize_blank_scope_counterexample :
    ([(" ").toList] : List Str) ≠ [] ∧
    pyIn (("<target_in_scope>").toList)
      (pyLower (("nmap -sV -Pn 10.10.10.99").toList)) = false ∧
    (∃ cand ∈ ipFindall (("nmap -sV -Pn 10.10.10.99").toList),
      normalize_target (fun _ => []) cand ≠ [] ∧
      normalize_target (fun _ => []) cand ∉
        normalizedScope (fun _ => []) [(" ").toList]) ∧
    sanitize_actions c2Guard (fun _ => []) [scanAction] [(" ").toList] =
      [scanAction] := by
  refine ⟨by decide, by decide,
    ⟨(("10.10.10.99").toList), by decide, by decide, by decide⟩, ?_⟩
  decide

/-- C2 witness: the claim scenario — scope `["10.10.10.25"]`, command
`"nmap -sV -Pn 10.10.10.99"` — yields a null command and a rationale
containing `"10.10.10.99"` and "out of session scope". -/
theorem sanitize_out_of_scope_witness :
    ∃ res : ActionItem,
      (sanitize_actions c2Guard (fun _ => []) [scanAction]
        [(("10.10.10.25").toList)])[0]? = some res ∧
      res.command = none ∧
      pyIn (("out of session scope").toList) res.rationale = true ∧
      (∀ t ∈ find_out_of_scope_targets (fun _ => [])
        (("nmap -sV -Pn 10.10.10.99").toList)
        (normalizedScope (fun _ => []) [(("10.10.10.25").toList)]),
        pyIn t res.rationale = true) ∧
      pyIn (("10.10.10.99").toList) res.rationale = true := by
  obtain ⟨res, hres, hc, hp, hall⟩ := sanitize_out_of_scope c2Guard (fun _ => [])
    [scanAction] [(("10.10.10.25").toList)] 0 scanAction
    (("nmap -sV -Pn 10.10.10.99").toList) rfl rfl (by decide) (by decide)
    (by decide) (by decide)
  exact ⟨res, hres, hc, hp, hall, hall (("10.10.10.99").toList) (by decide)⟩
